import Mathlib

/-!
# Group membership reconciliation of terraform-provider-azdo

A shallow embedding of `services/identity_service.go` (the identity service)
and of the `Create` / `Update` handlers of
`internal/provider/group_membership_resource.go`.

* Pointer fields of the SDK's `identity.Identity` are `Option`s; dereferencing
  an absent one is the Go run-time panic, modelled by `Res.panic`.
* The remote directory is an arbitrary state machine (`Client σ`); every call
  made to it is appended to the `calls` log of the `World`.
* Diagnostics: `Res.error msg` returned by a handler stands for
  `resp.Diagnostics.AddError(_, msg)` followed by `return` (state not saved),
  `Res.ok data` for `resp.State.Set(ctx, &data)` without error.
-/

namespace Azdo

/-! ## Data model -/

/-- The fields of the SDK's `identity.Identity` that the repository reads.
`Id` is the canonical string form of the UUID (`Id.String()`). -/
structure Identity where
  Id : Option String := none
  CustomDisplayName : Option String := none
  ProviderDisplayName : Option String := none
  Descriptor : Option String := none
  deriving DecidableEq

/-- The state of a terraform-plugin-framework value (`attr.ValueState`). -/
inductive ValueState where
  | Null
  | Unknown
  | Known
  deriving DecidableEq

/-- The framework's `types.String` (`basetypes.StringValue`): a state and a value,
compared with `==` field by field. -/
structure TfString where
  state : ValueState
  value : String
  deriving DecidableEq

/-- The framework's `types.StringValue(v)`: a known string. -/
def StringValue (v : String) : TfString := ⟨ValueState.Known, v⟩

/-- The framework's `ValueString()`: the stored string (empty for null and unknown). -/
def TfString.ValueString (s : TfString) : String := s.value

/-- `GroupMembershipResourceModel` of the resource. -/
structure GroupMembershipResourceModel where
  ProjectId : TfString
  Group : TfString
  Members : List TfString
  deriving DecidableEq

/-- Arguments of the SDK's `ReadIdentities`, as far as the repository sets them. -/
structure ReadIdentitiesArgs where
  Descriptors : Option String := none
  FilterValue : Option String := none
  SearchFilter : Option String := none
  deriving DecidableEq

/-- One remote call of the SDK client, with the arguments the repository passes. -/
inductive Call where
  | ReadIdentities (args : ReadIdentitiesArgs)
  | ListGroups (recurse : Bool)
  | ReadMembers (containerId : String)
  | AddMember (containerId memberId : String)
  | RemoveMember (containerId memberId : String)
  deriving DecidableEq

/-- The remote directory behind `identity.ClientImpl`: each operation maps the
remote state to a result (a value or the transport error's text) and a new state. -/
structure Client (σ : Type) where
  ReadIdentities : ReadIdentitiesArgs → σ → Except String (List Identity) × σ
  ListGroups : Bool → σ → Except String (List Identity) × σ
  ReadMembers : String → σ → Except String (List String) × σ
  AddMember : String → String → σ → Except String Bool × σ
  RemoveMember : String → String → σ → Except String Bool × σ

/-- The remote state together with the chronological log of calls issued so far. -/
structure World (σ : Type) where
  remote : σ
  calls : List Call

/-- Result of a Go function returning `(value, error)` that may also panic. -/
inductive Res (α : Type) where
  | ok (val : α)
  | error (msg : String)
  | panic
  deriving DecidableEq

/-- Whether a call is a mutation (`AddMember` / `RemoveMember`). -/
def Call.isMutation : Call → Bool
  | Call.AddMember _ _ => true
  | Call.RemoveMember _ _ => true
  | _ => false

/-! ## The SDK calls, logged -/

variable {σ : Type}

def callReadIdentities (c : Client σ) (args : ReadIdentitiesArgs) (w : World σ) :
    Except String (List Identity) × World σ :=
  ((c.ReadIdentities args w.remote).1,
    ⟨(c.ReadIdentities args w.remote).2, w.calls ++ [Call.ReadIdentities args]⟩)

def callListGroups (c : Client σ) (recurse : Bool) (w : World σ) :
    Except String (List Identity) × World σ :=
  ((c.ListGroups recurse w.remote).1,
    ⟨(c.ListGroups recurse w.remote).2, w.calls ++ [Call.ListGroups recurse]⟩)

def callReadMembers (c : Client σ) (containerId : String) (w : World σ) :
    Except String (List String) × World σ :=
  ((c.ReadMembers containerId w.remote).1,
    ⟨(c.ReadMembers containerId w.remote).2, w.calls ++ [Call.ReadMembers containerId]⟩)

def callAddMember (c : Client σ) (containerId memberId : String) (w : World σ) :
    Except String Bool × World σ :=
  ((c.AddMember containerId memberId w.remote).1,
    ⟨(c.AddMember containerId memberId w.remote).2,
      w.calls ++ [Call.AddMember containerId memberId]⟩)

def callRemoveMember (c : Client σ) (containerId memberId : String) (w : World σ) :
    Except String Bool × World σ :=
  ((c.RemoveMember containerId memberId w.remote).1,
    ⟨(c.RemoveMember containerId memberId w.remote).2,
      w.calls ++ [Call.RemoveMember containerId memberId]⟩)

/-! ## services/identity_service.go -/

/-- The arguments `GetIdentityByName` passes: the name as filter value, scope "General". -/
def searchArgs (name : String) : ReadIdentitiesArgs :=
  { FilterValue := some name, SearchFilter := some "General" }

/-- `IdentityService.GetIdentityByName`: the first identity of the search, an error
when the call fails or returns none (`%w` of a nil error prints `%!w(<nil>)`). -/
def GetIdentityByName (c : Client σ) (name : String) (w : World σ) : Res Identity × World σ :=
  match callReadIdentities c (searchArgs name) w with
  | (Except.error e, w1) => (Res.error ("failed to read identities from azure devops: " ++ e), w1)
  | (Except.ok (foundmember :: _), w1) => (Res.ok foundmember, w1)
  | (Except.ok [], w1) =>
    (Res.error ("failed to find identity " ++ name ++ " in azure devops: %!w(<nil>)"), w1)

/-- `IdentityService.GetIdentitiesByDescriptor`: the whole response of the batched
lookup, an error when the call fails or the response is empty. -/
def GetIdentitiesByDescriptor (c : Client σ) (descriptor : String) (w : World σ) :
    Res (List Identity) × World σ :=
  match callReadIdentities c { Descriptors := some descriptor } w with
  | (Except.error e, w1) => (Res.error ("failed to read identities from azure devops: " ++ e), w1)
  | (Except.ok (m :: ms), w1) => (Res.ok (m :: ms), w1)
  | (Except.ok [], w1) =>
    (Res.error ("failed to find identities with descriptor " ++ descriptor ++
      " in azure devops: %!w(<nil>)"), w1)

/-- The scan of `GetGroup`: `foundGroup` starts as the zero value and takes the first
group whose `ProviderDisplayName` is present and equal to `name` (then `break`). -/
def scanGroups (name : String) : List Identity → Identity
  | [] => {}
  | group :: rest =>
    if group.ProviderDisplayName = some name then group else scanGroups name rest

/-- `IdentityService.GetGroup`. -/
def GetGroup (c : Client σ) (name : String) (w : World σ) : Res Identity × World σ :=
  match callListGroups c true w with
  | (Except.error e, w1) => (Res.error ("failed to list groups from azure devops: " ++ e), w1)
  | (Except.ok response, w1) =>
    if scanGroups name response = {} then (Res.error ("group " ++ name ++ " not found"), w1)
    else (Res.ok (scanGroups name response), w1)

/-- The value `*m.CustomDisplayName` of an identity that carries one: the key
`slices.SortFunc` compares in `GetGroupMembers`, where every element of
`validMembers` carries a `CustomDisplayName`, so the default is never used. -/
def displayName (m : Identity) : String := m.CustomDisplayName.getD ""

/-- `slices.SortFunc(validMembers, strings.Compare on CustomDisplayName)`: the order is
the lexicographic one on the characters of the display names, the sort the insertion
sort Go runs on short slices (stable; Go's sort of longer slices may order members of
equal name differently). -/
def SortFunc (validMembers : List Identity) : List Identity :=
  validMembers.insertionSort (fun i j => (displayName i).toList ≤ (displayName j).toList)

/-- `IdentityService.GetGroupMembers`. -/
def GetGroupMembers (c : Client σ) (name : String) (w : World σ) :
    Res (List Identity) × World σ :=
  match GetGroup c name w with
  | (Res.error e, w1) => (Res.error e, w1)
  | (Res.panic, w1) => (Res.panic, w1)
  | (Res.ok foundGroup, w1) =>
    match foundGroup.Id with
    | none => (Res.panic, w1)
    | some foundGroupId =>
      match callReadMembers c foundGroupId w1 with
      | (Except.error e, w2) =>
        (Res.error ("failed to get members of group " ++ name ++ " from azure devops: " ++ e), w2)
      | (Except.ok response, w2) =>
        match GetIdentitiesByDescriptor c (",".intercalate response) w2 with
        | (Res.error e, w3) => (Res.error e, w3)
        | (Res.panic, w3) => (Res.panic, w3)
        | (Res.ok members, w3) =>
          (Res.ok (SortFunc (members.filter (fun member => member.CustomDisplayName.isSome))), w3)

/-- `IdentityService.AddMemberToGroup`: the call is keyed by the two ids; the error
text dereferences both `ProviderDisplayName`s. -/
def AddMemberToGroup (c : Client σ) (group member : Identity) (w : World σ) :
    Res Unit × World σ :=
  match group.Id, member.Id with
  | some containerId, some memberId =>
    match callAddMember c containerId memberId w with
    | (Except.ok _, w1) => (Res.ok (), w1)
    | (Except.error e, w1) =>
      match member.ProviderDisplayName, group.ProviderDisplayName with
      | some m, some g =>
        (Res.error ("failed to add member " ++ m ++ " to group: " ++ g ++ ": " ++ e), w1)
      | _, _ => (Res.panic, w1)
  | _, _ => (Res.panic, w)

/-- `IdentityService.RemoveMemberFromGroup`: the call is keyed by the two ids; the
error text dereferences both `CustomDisplayName`s. -/
def RemoveMemberFromGroup (c : Client σ) (group member : Identity) (w : World σ) :
    Res Unit × World σ :=
  match group.Id, member.Id with
  | some containerId, some memberId =>
    match callRemoveMember c containerId memberId w with
    | (Except.ok _, w1) => (Res.ok (), w1)
    | (Except.error e, w1) =>
      match member.CustomDisplayName, group.CustomDisplayName with
      | some m, some g =>
        (Res.error ("failed to remove member " ++ m ++ " from group: " ++ g ++ ": " ++ e), w1)
      | _, _ => (Res.panic, w1)
  | _, _ => (Res.panic, w)

/-! ## internal/provider/group_membership_resource.go -/

/-- The test `slices.ContainsFunc(*members, m ↦ *m.CustomDisplayName == name)` of
`Update`: stops at the first match; dereferencing an absent `CustomDisplayName`
on the way is the panic `none`. -/
def ContainsFunc (name : String) : List Identity → Option Bool
  | [] => some false
  | m :: rest =>
    match m.CustomDisplayName with
    | none => none
    | some d => if d = name then some true else ContainsFunc name rest

/-- The first loop of `Update` (over `data.Members`): a desired name found among
`members` is skipped, any other is resolved with `GetIdentityByName` and appended to
`toAddMembers`; the first failing resolution ends the handler with its error. -/
def toAddLoop (c : Client σ) (members : List Identity) :
    List TfString → List Identity → World σ → Res (List Identity) × World σ
  | [], toAddMembers, w => (Res.ok toAddMembers, w)
  | stateMember :: rest, toAddMembers, w =>
    match ContainsFunc stateMember.ValueString members with
    | none => (Res.panic, w)
    | some true => toAddLoop c members rest toAddMembers w
    | some false =>
      match GetIdentityByName c stateMember.ValueString w with
      | (Res.error e, w1) => (Res.error e, w1)
      | (Res.panic, w1) => (Res.panic, w1)
      | (Res.ok foundMember, w1) => toAddLoop c members rest (toAddMembers ++ [foundMember]) w1

/-- The second loop of `Update` (over `*members`): a member is appended to
`toRemoveMembers` unless `slices.Contains(data.Members,
types.StringValue(*member.CustomDisplayName))`; `none` is the nil dereference. -/
def toRemoveLoop (desired : List TfString) :
    List Identity → List Identity → Option (List Identity)
  | [], toRemoveMembers => some toRemoveMembers
  | member :: rest, toRemoveMembers =>
    match member.CustomDisplayName with
    | none => none
    | some d =>
      if desired.contains (StringValue d) then toRemoveLoop desired rest toRemoveMembers
      else toRemoveLoop desired rest (toRemoveMembers ++ [member])

/-- The third loop of `Update`: `AddMemberToGroup` for each entry of `toAddMembers`,
returning at the first error; after a successful add the log line dereferences the
added identity's `CustomDisplayName`. -/
def addLoop (c : Client σ) (foundGroup : Identity) :
    List Identity → World σ → Res Unit × World σ
  | [], w => (Res.ok (), w)
  | foundIdentity :: rest, w =>
    match AddMemberToGroup c foundGroup foundIdentity w with
    | (Res.error e, w1) => (Res.error e, w1)
    | (Res.panic, w1) => (Res.panic, w1)
    | (Res.ok _, w1) =>
      match foundIdentity.CustomDisplayName with
      | none => (Res.panic, w1)
      | some _ => addLoop c foundGroup rest w1

/-- The fourth loop of `Update`: `RemoveMemberFromGroup` for each entry of
`toRemoveMembers`, returning at the first error; after a successful remove the log
line dereferences the removed identity's `CustomDisplayName`. -/
def removeLoop (c : Client σ) (foundGroup : Identity) :
    List Identity → World σ → Res Unit × World σ
  | [], w => (Res.ok (), w)
  | foundIdentity :: rest, w =>
    match RemoveMemberFromGroup c foundGroup foundIdentity w with
    | (Res.error e, w1) => (Res.error e, w1)
    | (Res.panic, w1) => (Res.panic, w1)
    | (Res.ok _, w1) =>
      match foundIdentity.CustomDisplayName with
      | none => (Res.panic, w1)
      | some _ => removeLoop c foundGroup rest w1

/-- The apply phase of `Update` (the third and fourth loops, then `State.Set`). -/
def applyPhase (c : Client σ) (data : GroupMembershipResourceModel) (foundGroup : Identity)
    (toAddMembers toRemoveMembers : List Identity) (w : World σ) :
    Res GroupMembershipResourceModel × World σ :=
  match addLoop c foundGroup toAddMembers w with
  | (Res.error e, w1) => (Res.error e, w1)
  | (Res.panic, w1) => (Res.panic, w1)
  | (Res.ok _, w1) =>
    match removeLoop c foundGroup toRemoveMembers w1 with
    | (Res.error e, w2) => (Res.error e, w2)
    | (Res.panic, w2) => (Res.panic, w2)
    | (Res.ok _, w2) => (Res.ok data, w2)

/-- The diff phase of `Update` (the first and second loops) followed by the apply
phase, for the members and the group already fetched. -/
def diffAndApply (c : Client σ) (data : GroupMembershipResourceModel)
    (members : List Identity) (foundGroup : Identity) (w : World σ) :
    Res GroupMembershipResourceModel × World σ :=
  match toAddLoop c members data.Members [] w with
  | (Res.error e, w1) => (Res.error e, w1)
  | (Res.panic, w1) => (Res.panic, w1)
  | (Res.ok toAddMembers, w1) =>
    match toRemoveLoop data.Members members [] with
    | none => (Res.panic, w1)
    | some toRemoveMembers => applyPhase c data foundGroup toAddMembers toRemoveMembers w1

/-- `GroupMembershipResource.Update`, from the plan `data` on. -/
def Update (c : Client σ) (data : GroupMembershipResourceModel) (w : World σ) :
    Res GroupMembershipResourceModel × World σ :=
  match GetGroupMembers c data.Group.ValueString w with
  | (Res.error e, w1) => (Res.error e, w1)
  | (Res.panic, w1) => (Res.panic, w1)
  | (Res.ok members, w1) =>
    match GetGroup c data.Group.ValueString w1 with
    | (Res.error e, w2) => (Res.error e, w2)
    | (Res.panic, w2) => (Res.panic, w2)
    | (Res.ok foundGroup, w2) => diffAndApply c data members foundGroup w2

/-- The first loop of `Create`: every desired name is resolved, the first failing
resolution ends the handler with its error. -/
def resolveLoop (c : Client σ) :
    List TfString → List Identity → World σ → Res (List Identity) × World σ
  | [], foundmembers, w => (Res.ok foundmembers, w)
  | member :: rest, foundmembers, w =>
    match GetIdentityByName c member.ValueString w with
    | (Res.error e, w1) => (Res.error e, w1)
    | (Res.panic, w1) => (Res.panic, w1)
    | (Res.ok response, w1) => resolveLoop c rest (foundmembers ++ [response]) w1

/-- The second loop of `Create`: `AddMemberToGroup` for each resolved identity; after
a successful add the log line dereferences both `ProviderDisplayName`s. -/
def createAddLoop (c : Client σ) (foundGroup : Identity) :
    List Identity → World σ → Res Unit × World σ
  | [], w => (Res.ok (), w)
  | foundIdentity :: rest, w =>
    match AddMemberToGroup c foundGroup foundIdentity w with
    | (Res.error e, w1) => (Res.error e, w1)
    | (Res.panic, w1) => (Res.panic, w1)
    | (Res.ok _, w1) =>
      match foundIdentity.ProviderDisplayName, foundGroup.ProviderDisplayName with
      | some _, some _ => createAddLoop c foundGroup rest w1
      | _, _ => (Res.panic, w1)

/-- `GroupMembershipResource.Create`, from the plan `data` on. -/
def Create (c : Client σ) (data : GroupMembershipResourceModel) (w : World σ) :
    Res GroupMembershipResourceModel × World σ :=
  match resolveLoop c data.Members [] w with
  | (Res.error e, w1) => (Res.error e, w1)
  | (Res.panic, w1) => (Res.panic, w1)
  | (Res.ok foundmembers, w1) =>
    match GetGroup c data.Group.ValueString w1 with
    | (Res.error e, w2) => (Res.error e, w2)
    | (Res.panic, w2) => (Res.panic, w2)
    | (Res.ok foundGroup, w2) =>
      match createAddLoop c foundGroup foundmembers w2 with
      | (Res.error e, w3) => (Res.error e, w3)
      | (Res.panic, w3) => (Res.panic, w3)
      | (Res.ok _, w3) => (Res.ok data, w3)

/-! ## A scripted directory for the scenarios -/

/-- A directory with fixed answers: the groups `ListGroups` returns, the descriptors
`ReadMembers` returns, the identities the batched descriptor lookup returns, the
identities a search returns per filter value, the member ids whose `AddMember`
or `RemoveMember` call fails, and the filter values whose search fails in transport. -/
structure Script where
  groups : List Identity
  memberDescriptors : List String
  lookedUp : List Identity
  search : List (String × List Identity)
  failing : List String
  unreachable : List String := []

/-- The client answering from a script; it has no state of its own. -/
def scripted (d : Script) : Client Unit where
  ReadIdentities := fun args s =>
    match args.FilterValue with
    | some name =>
      if name ∈ d.unreachable then (Except.error "connection reset", s)
      else (Except.ok ((d.search.lookup name).getD []), s)
    | none => (Except.ok d.lookedUp, s)
  ListGroups := fun _ s => (Except.ok d.groups, s)
  ReadMembers := fun _ s => (Except.ok d.memberDescriptors, s)
  AddMember := fun _ memberId s =>
    if memberId ∈ d.failing then (Except.error "connection reset", s) else (Except.ok true, s)
  RemoveMember := fun _ memberId s =>
    if memberId ∈ d.failing then (Except.error "connection reset", s) else (Except.ok true, s)

/-- The world before a handler runs: nothing has been called yet. -/
def start : World Unit := ⟨(), []⟩

def testers : Identity :=
  { Id := some "g-1", ProviderDisplayName := some "Testers", Descriptor := some "vssgp.1" }

def alice : Identity :=
  { Id := some "u-1", CustomDisplayName := some "Alice", ProviderDisplayName := some "Alice",
    Descriptor := some "aad.1" }

def bob : Identity :=
  { Id := some "u-2", CustomDisplayName := some "Bob", ProviderDisplayName := some "Bob",
    Descriptor := some "aad.2" }

def carol : Identity :=
  { Id := some "u-3", CustomDisplayName := some "Carol", ProviderDisplayName := some "Carol",
    Descriptor := some "aad.3" }

/-- Scenario A: group Testers has members Alice and Bob; Carol is in the directory. -/
def scenarioA : Script :=
  { groups := [testers], memberDescriptors := ["aad.1", "aad.2"], lookedUp := [alice, bob],
    search := [("Alice", [alice]), ("Bob", [bob]), ("Carol", [carol])], failing := [] }

/-- Bob is the only member of Testers, under the display name "Bob"; the directory
search also finds him by his sign-in address. -/
def scenarioSignIn : Script :=
  { groups := [testers], memberDescriptors := ["aad.2"], lookedUp := [bob],
    search := [("Bob", [bob]), ("bob@corp.example", [bob])], failing := [] }

/-- A plan for the group Testers with the given member names. -/
def planFor (names : List String) : GroupMembershipResourceModel :=
  ⟨StringValue "project-1", StringValue "Testers", names.map StringValue⟩

/-- Carol as the directory returns her when no custom display name is set: the
optional `customDisplayName` is absent. -/
def carolUnnamed : Identity :=
  { Id := some "u-3", ProviderDisplayName := some "Carol", Descriptor := some "aad.3" }

def dave : Identity :=
  { Id := some "u-4", CustomDisplayName := some "Dave", ProviderDisplayName := some "Dave",
    Descriptor := some "aad.4" }

def erin : Identity :=
  { Id := some "u-5", CustomDisplayName := some "Erin", ProviderDisplayName := some "Erin",
    Descriptor := some "aad.5" }

/-- Alice is the only member of Testers; Carol is found without a custom display name;
no remote call fails. -/
def scenarioUnnamed : Script :=
  { groups := [testers], memberDescriptors := ["aad.1"], lookedUp := [alice],
    search := [("Carol", [carolUnnamed]), ("Dave", [dave])], failing := [] }

/-- Scenario D: Testers has members Alice and Bob; every `AddMember` or `RemoveMember`
call for Dave fails. -/
def scenarioD : Script :=
  { groups := [testers], memberDescriptors := ["aad.1", "aad.2"], lookedUp := [alice, bob],
    search := [("Carol", [carol]), ("Dave", [dave]), ("Erin", [erin])], failing := ["u-4"] }

/-- Scenario D with Alice the only member of Testers. -/
def scenarioD2 : Script :=
  { groups := [testers], memberDescriptors := ["aad.1"], lookedUp := [alice],
    search := [("Carol", [carol]), ("Dave", [dave]), ("Erin", [erin])], failing := ["u-4"] }

/-- A directory entry without a custom display name. -/
def buildService : Identity :=
  { Id := some "s-1", ProviderDisplayName := some "Build Service", Descriptor := some "svc.1" }

/-- Scenario A while the search for Carol fails in transport. -/
def scenarioOutage : Script :=
  { groups := [testers], memberDescriptors := ["aad.1", "aad.2"], lookedUp := [alice, bob],
    search := [("Carol", [carol])], failing := [], unreachable := ["Carol"] }

/-- Testers with three member descriptors, looked up as Bob, an unnamed entry and Alice,
in that order. -/
def scenarioMixed : Script :=
  { groups := [testers], memberDescriptors := ["aad.2", "svc.1", "aad.1"],
    lookedUp := [bob, buildService, alice], search := [], failing := [] }

def readers : Identity :=
  { Id := some "g-2", ProviderDisplayName := some "Readers", Descriptor := some "vssgp.2" }

/-- A second group with the display name Testers. -/
def testersTwin : Identity :=
  { Id := some "g-3", ProviderDisplayName := some "Testers", Descriptor := some "vssgp.3" }

/-- A listed group without a display name. -/
def namelessGroup : Identity :=
  { Id := some "g-4", Descriptor := some "vssgp.4" }

/-- A directory listing a nameless group, Readers, Testers and a second Testers. -/
def scenarioGroups : Script :=
  { groups := [namelessGroup, readers, testers, testersTwin], memberDescriptors := [],
    lookedUp := [], search := [], failing := [] }

/-- Scenario A while every `AddMember` or `RemoveMember` call for Bob fails. -/
def scenarioRemoveFails : Script :=
  { groups := [testers], memberDescriptors := ["aad.1", "aad.2"], lookedUp := [alice, bob],
    search := [("Alice", [alice]), ("Bob", [bob])], failing := ["u-2"] }

/-- A group that carries a custom display name next to the provider's. -/
def reviewers : Identity :=
  { Id := some "g-5", CustomDisplayName := some "Reviewers",
    ProviderDisplayName := some "Reviewers", Descriptor := some "vssgp.5" }

/-- Reviewers has members Alice and Bob; every `AddMember` or `RemoveMember` call for
Bob fails. -/
def scenarioReviewers : Script :=
  { groups := [reviewers], memberDescriptors := ["aad.1", "aad.2"], lookedUp := [alice, bob],
    search := [("Alice", [alice]), ("Bob", [bob])], failing := ["u-2"] }

/-- A plan for the group Reviewers with the given member names. -/
def reviewersPlan (names : List String) : GroupMembershipResourceModel :=
  ⟨StringValue "project-1", StringValue "Reviewers", names.map StringValue⟩

/-! ## The diff as the specification words it -/

/-- Every identity of the list carries a `CustomDisplayName`, as every member
returned by `GetGroupMembers` does. -/
def AllNamed (actual : List Identity) : Prop :=
  ∀ m ∈ actual, m.CustomDisplayName.isSome = true

instance (actual : List Identity) : Decidable (AllNamed actual) := by
  unfold AllNamed
  infer_instance

/-- The display names of the actual members. -/
def displayNames (actual : List Identity) : List String := actual.map displayName

/-- Post-composition on the value of a result. -/
def Res.map {α β : Type} (f : α → β) : Res α → Res β
  | Res.ok a => Res.ok (f a)
  | Res.error e => Res.error e
  | Res.panic => Res.panic

/-- Resolution (`GetIdentityByName`) of each name of a list, in list order, each
against the remote state the previous one left; the first failure is the result. -/
def resolveNames (c : Client σ) : List String → World σ → Res (List Identity) × World σ
  | [], w => (Res.ok [], w)
  | n :: rest, w =>
    match GetIdentityByName c n w with
    | (Res.error e, w1) => (Res.error e, w1)
    | (Res.panic, w1) => (Res.panic, w1)
    | (Res.ok found, w1) =>
      ((resolveNames c rest w1).1.map (fun l => found :: l), (resolveNames c rest w1).2)

/-- The desired names that equal no actual member's display name, in desired order. -/
def namesToAdd (names : List String) (actual : List Identity) : List String :=
  names.filter (fun n => decide (n ∉ displayNames actual))

/-- The actual members whose display name equals no desired name, in actual order. -/
def membersToRemove (names : List String) (actual : List Identity) : List Identity :=
  actual.filter (fun m => decide (displayName m ∉ names))

/-- The identity `i` is what a search for `n` returns first in some remote state. -/
def Resolves (c : Client σ) (n : String) (i : Identity) : Prop :=
  ∃ s rest, (c.ReadIdentities (searchArgs n) s).1 = Except.ok (i :: rest)

/-- The search for a name answers the same in every remote state. -/
def Deterministic (c : Client σ) : Prop :=
  ∀ n s1 s2, (c.ReadIdentities (searchArgs n) s1).1 = (c.ReadIdentities (searchArgs n) s2).1

/-- The mutation calls (`AddMember`, `RemoveMember`) issued so far, in order. -/
def World.mutations (w : World σ) : List Call := w.calls.filter Call.isMutation

/-- The add calls the apply phase is to issue for `toAdd`, keyed by group and member id. -/
def plannedAdds (gid : String) (toAdd : List Identity) : List Call :=
  toAdd.filterMap (fun a => a.Id.map (Call.AddMember gid))

/-- The remove calls the apply phase is to issue for `toRemove`. -/
def plannedRemoves (gid : String) (toRemove : List Identity) : List Call :=
  toRemove.filterMap (fun r => r.Id.map (Call.RemoveMember gid))

/-- From world `w` to world `w1` only read calls (`ReadIdentities`, `ListGroups`,
`ReadMembers`) were appended to the log. -/
def OnlyReads (w w1 : World σ) : Prop :=
  ∃ reads, w1.calls = w.calls ++ reads ∧ ∀ x ∈ reads, x.isMutation = false

/-- From world `w` to world `w1` only `AddMember` / `RemoveMember` calls were appended
to the log. -/
def OnlyMutations (w w1 : World σ) : Prop :=
  ∃ muts, w1.calls = w.calls ++ muts ∧ ∀ x ∈ muts, x.isMutation = true

/-- From world `w` to world `w1` the log grew by read calls followed by mutation calls:
no read call comes after the first mutation call. -/
def ReadsThenMutations (w w1 : World σ) : Prop :=
  ∃ reads muts, w1.calls = w.calls ++ reads ++ muts ∧
    (∀ x ∈ reads, x.isMutation = false) ∧ (∀ x ∈ muts, x.isMutation = true)

/-! ## Lemmas on the diff loops -/

theorem containsFunc_of_allNamed (n : String) (actual : List Identity) (h : AllNamed actual) :
    ContainsFunc n actual = some (decide (n ∈ displayNames actual)) := by
  induction actual with
  | nil => simp [ContainsFunc, displayNames]
  | cons m rest ih =>
    have hm : m.CustomDisplayName.isSome = true := h m (List.mem_cons_self _ _)
    have hrest : AllNamed rest := fun x hx => h x (List.mem_cons_of_mem _ hx)
    obtain ⟨d, hd⟩ := Option.isSome_iff_exists.mp hm
    by_cases hdn : d = n
    · simp [ContainsFunc, hd, hdn, displayNames, displayName]
    · have hnd : ¬ n = d := fun h => hdn h.symm
      simp [ContainsFunc, hd, hdn, hnd, ih hrest, displayNames, displayName]

theorem stringValue_injective : Function.Injective StringValue := by
  intro a b h
  simpa [StringValue] using h

theorem contains_stringValue (names : List String) (d : String) :
    (names.map StringValue).contains (StringValue d) = decide (d ∈ names) := by
  rw [Bool.eq_iff_iff]
  simp [stringValue_injective.eq_iff]

theorem toAddLoop_eq_resolveNames (c : Client σ) (actual : List Identity) (h : AllNamed actual)
    (names : List String) (acc : List Identity) (w : World σ) :
    toAddLoop c actual (names.map StringValue) acc w =
      ((resolveNames c (namesToAdd names actual) w).1.map (fun l => acc ++ l),
        (resolveNames c (namesToAdd names actual) w).2) := by
  induction names generalizing acc w with
  | nil => simp [toAddLoop, namesToAdd, resolveNames, Res.map]
  | cons n rest ih =>
    by_cases hn : n ∈ displayNames actual
    · have hf : namesToAdd (n :: rest) actual = namesToAdd rest actual := by
        simp [namesToAdd, hn]
      simp only [List.map_cons, toAddLoop, StringValue, TfString.ValueString,
        containsFunc_of_allNamed n actual h, hn, decide_True, hf]
      exact ih acc w
    · have hf : namesToAdd (n :: rest) actual = n :: namesToAdd rest actual := by
        simp [namesToAdd, hn]
      simp only [List.map_cons, toAddLoop, StringValue, TfString.ValueString,
        containsFunc_of_allNamed n actual h, hn, decide_False, hf, resolveNames]
      rcases hg : GetIdentityByName c n w with ⟨r, w1⟩
      cases r with
      | error e => simp [Res.map]
      | panic => simp [Res.map]
      | ok found =>
        simp only []
        have := ih (acc ++ [found]) w1
        simp only [StringValue] at this
        rw [this]
        cases (resolveNames c (namesToAdd rest actual) w1).1 <;> simp [Res.map]

theorem toRemoveLoop_eq_filter (names : List String) (actual : List Identity)
    (h : AllNamed actual) (acc : List Identity) :
    toRemoveLoop (names.map StringValue) actual acc = some (acc ++ membersToRemove names actual) := by
  induction actual generalizing acc with
  | nil => simp [toRemoveLoop, membersToRemove]
  | cons m rest ih =>
    have hm : m.CustomDisplayName.isSome = true := h m (List.mem_cons_self _ _)
    have hrest : AllNamed rest := fun x hx => h x (List.mem_cons_of_mem _ hx)
    obtain ⟨d, hd⟩ := Option.isSome_iff_exists.mp hm
    have hdn : displayName m = d := by simp [displayName, hd]
    by_cases hin : d ∈ names
    · simp only [toRemoveLoop, hd, contains_stringValue, hin, decide_True, if_true, ih hrest]
      simp [membersToRemove, hdn, hin]
    · simp only [toRemoveLoop, hd, contains_stringValue, hin, decide_False, ih hrest]
      simp [membersToRemove, hdn, hin]

theorem namesToAdd_eq_nil (names : List String) (actual : List Identity)
    (h : ∀ n ∈ names, n ∈ displayNames actual) : namesToAdd names actual = [] := by
  simp only [namesToAdd, List.filter_eq_nil_iff]
  intro n hn
  simp [h n hn]

theorem membersToRemove_eq_nil (names : List String) (actual : List Identity)
    (h : ∀ m ∈ actual, displayName m ∈ names) : membersToRemove names actual = [] := by
  simp only [membersToRemove, List.filter_eq_nil_iff]
  intro m hm
  simp [h m hm]

theorem getIdentityByName_ok (c : Client σ) (n : String) (w w1 : World σ) (i : Identity)
    (h : GetIdentityByName c n w = (Res.ok i, w1)) :
    (∃ rest, (c.ReadIdentities (searchArgs n) w.remote).1 = Except.ok (i :: rest)) ∧
      w1.calls = w.calls ++ [Call.ReadIdentities (searchArgs n)] := by
  unfold GetIdentityByName callReadIdentities at h
  rcases hr : (c.ReadIdentities (searchArgs n) w.remote).1 with e | l
  · rw [hr] at h
    simp at h
  · rw [hr] at h
    cases l with
    | nil => simp at h
    | cons a rest =>
      simp only [Prod.mk.injEq, Res.ok.injEq] at h
      refine ⟨⟨rest, by rw [h.1]⟩, ?_⟩
      rw [← h.2]

theorem resolveNames_ok (c : Client σ) (l : List String) (w w1 : World σ)
    (found : List Identity) (h : resolveNames c l w = (Res.ok found, w1)) :
    List.Forall₂ (Resolves c) l found := by
  induction l generalizing w w1 found with
  | nil =>
    simp only [resolveNames, Prod.mk.injEq, Res.ok.injEq] at h
    rw [← h.1]
    exact List.Forall₂.nil
  | cons n rest ih =>
    simp only [resolveNames] at h
    rcases hg : GetIdentityByName c n w with ⟨r, w2⟩
    rw [hg] at h
    cases r with
    | error e => simp at h
    | panic => simp at h
    | ok i =>
      simp only [Prod.mk.injEq] at h
      rcases hrest : resolveNames c rest w2 with ⟨r2, w3⟩
      rw [hrest] at h
      cases r2 with
      | error e => simp [Res.map] at h
      | panic => simp [Res.map] at h
      | ok is =>
        simp only [Res.map, Res.ok.injEq] at h
        rw [← h.1]
        exact List.Forall₂.cons ⟨w.remote, (getIdentityByName_ok c n w w2 i hg).1⟩
          (ih w2 w3 is hrest)

theorem resolveNames_succeeds (c : Client σ) (l : List String)
    (h : ∀ n ∈ l, ∀ s, ∃ i rest, (c.ReadIdentities (searchArgs n) s).1 = Except.ok (i :: rest))
    (w : World σ) : ∃ found w1, resolveNames c l w = (Res.ok found, w1) := by
  induction l generalizing w with
  | nil => exact ⟨[], w, rfl⟩
  | cons n rest ih =>
    obtain ⟨i, tl, hi⟩ := h n (List.mem_cons_self _ _) w.remote
    have hg : GetIdentityByName c n w = (Res.ok i, (callReadIdentities c (searchArgs n) w).2) := by
      simp [GetIdentityByName, callReadIdentities, hi]
    obtain ⟨found, w1, hrest⟩ :=
      ih (fun m hm => h m (List.mem_cons_of_mem _ hm)) (callReadIdentities c (searchArgs n) w).2
    exact ⟨i :: found, w1, by simp [resolveNames, hg, hrest, Res.map]⟩

theorem forall₂_exists_left {α β : Type} {R : α → β → Prop} {l₁ : List α} {l₂ : List β}
    (h : List.Forall₂ R l₁ l₂) : ∀ b ∈ l₂, ∃ a ∈ l₁, R a b := by
  induction h with
  | nil => intro b hb; simp at hb
  | cons hab _ ih =>
    intro b hb
    rcases List.mem_cons.mp hb with rfl | hb
    · exact ⟨_, List.mem_cons_self _ _, hab⟩
    · obtain ⟨a, ha, hr⟩ := ih b hb
      exact ⟨a, List.mem_cons_of_mem _ ha, hr⟩

theorem resolveNames_of_forall₂ (c : Client σ) (hdet : Deterministic c) (l : List String)
    (found : List Identity) (h : List.Forall₂ (Resolves c) l found) (w : World σ) :
    (resolveNames c l w).1 = Res.ok found := by
  induction h generalizing w with
  | nil => rfl
  | @cons n i rest tl hab _ ih =>
    obtain ⟨s, more, hs⟩ := hab
    have hi : (c.ReadIdentities (searchArgs n) w.remote).1 = Except.ok (i :: more) := by
      rw [hdet n w.remote s, hs]
    have hg : GetIdentityByName c n w = (Res.ok i, (callReadIdentities c (searchArgs n) w).2) := by
      simp [GetIdentityByName, callReadIdentities, hi]
    simp [resolveNames, hg, ih, Res.map]

theorem membersToRemove_perm (names1 names2 : List String) (actual : List Identity)
    (hperm : names1.Perm names2) :
    membersToRemove names1 actual = membersToRemove names2 actual := by
  unfold membersToRemove
  apply List.filter_congr
  intro m _
  simp [hperm.mem_iff]

/-! ## Lemmas on the call log and on failing resolutions -/

theorem callReadIdentities_mutations (c : Client σ) (args : ReadIdentitiesArgs) (w : World σ) :
    (callReadIdentities c args w).2.mutations = w.mutations := by
  simp [callReadIdentities, World.mutations, List.filter_append, Call.isMutation]

theorem callListGroups_mutations (c : Client σ) (recurse : Bool) (w : World σ) :
    (callListGroups c recurse w).2.mutations = w.mutations := by
  simp [callListGroups, World.mutations, List.filter_append, Call.isMutation]

theorem callReadMembers_mutations (c : Client σ) (containerId : String) (w : World σ) :
    (callReadMembers c containerId w).2.mutations = w.mutations := by
  simp [callReadMembers, World.mutations, List.filter_append, Call.isMutation]

theorem getIdentityByName_snd (c : Client σ) (n : String) (w : World σ) :
    (GetIdentityByName c n w).2 = (callReadIdentities c (searchArgs n) w).2 := by
  unfold GetIdentityByName
  rcases h : callReadIdentities c (searchArgs n) w with ⟨r, w1⟩
  rcases r with e | l
  · rfl
  · cases l <;> rfl

theorem getIdentityByName_ne_panic (c : Client σ) (n : String) (w : World σ) :
    (GetIdentityByName c n w).1 ≠ Res.panic := by
  unfold GetIdentityByName
  rcases h : callReadIdentities c (searchArgs n) w with ⟨r, w1⟩
  rcases r with e | l
  · simp
  · cases l <;> simp

theorem getIdentityByName_mutations (c : Client σ) (n : String) (w : World σ) :
    (GetIdentityByName c n w).2.mutations = w.mutations := by
  rw [getIdentityByName_snd, callReadIdentities_mutations]

theorem getIdentityByName_none (c : Client σ) (n : String) (w : World σ)
    (h : (c.ReadIdentities (searchArgs n) w.remote).1 = Except.ok []) :
    (GetIdentityByName c n w).1
      = Res.error ("failed to find identity " ++ n ++ " in azure devops: %!w(<nil>)") := by
  simp [GetIdentityByName, callReadIdentities, h]

theorem getIdentitiesByDescriptor_mutations (c : Client σ) (d : String) (w : World σ) :
    (GetIdentitiesByDescriptor c d w).2.mutations = w.mutations := by
  have hsnd : (GetIdentitiesByDescriptor c d w).2
      = (callReadIdentities c { Descriptors := some d } w).2 := by
    unfold GetIdentitiesByDescriptor
    rcases h : callReadIdentities c { Descriptors := some d } w with ⟨r, w1⟩
    rcases r with e | l
    · rfl
    · cases l <;> rfl
  rw [hsnd, callReadIdentities_mutations]

theorem getGroup_mutations (c : Client σ) (name : String) (w : World σ) :
    (GetGroup c name w).2.mutations = w.mutations := by
  have hsnd : (GetGroup c name w).2 = (callListGroups c true w).2 := by
    unfold GetGroup
    rcases h : callListGroups c true w with ⟨r, w1⟩
    rcases r with e | l
    · rfl
    · simp only []
      split <;> rfl
  rw [hsnd, callListGroups_mutations]

theorem getGroup_ne_panic (c : Client σ) (name : String) (w : World σ) :
    (GetGroup c name w).1 ≠ Res.panic := by
  unfold GetGroup
  rcases h : callListGroups c true w with ⟨r, w1⟩
  rcases r with e | l
  · simp
  · simp only []
    split <;> simp

theorem getGroupMembers_mutations (c : Client σ) (name : String) (w : World σ) :
    (GetGroupMembers c name w).2.mutations = w.mutations := by
  unfold GetGroupMembers
  rcases hg : GetGroup c name w with ⟨r, w1⟩
  have h1 : w1.mutations = w.mutations := by
    have := getGroup_mutations c name w
    rwa [hg] at this
  cases r with
  | error e => exact h1
  | panic => exact h1
  | ok foundGroup =>
    simp only []
    cases hid : foundGroup.Id with
    | none => exact h1
    | some gid =>
      simp only []
      rcases hm : callReadMembers c gid w1 with ⟨r2, w2⟩
      have h2 : w2.mutations = w.mutations := by
        have := callReadMembers_mutations c gid w1
        rw [hm] at this
        rw [← h1]
        exact this
      rcases r2 with e | response
      · exact h2
      · simp only []
        rcases hd : GetIdentitiesByDescriptor c (",".intercalate response) w2 with ⟨r3, w3⟩
        have h3 : w3.mutations = w.mutations := by
          have := getIdentitiesByDescriptor_mutations c (",".intercalate response) w2
          rw [hd] at this
          rw [← h2]
          exact this
        cases r3 <;> exact h3

theorem getGroupMembers_allNamed (c : Client σ) (name : String) (w w1 : World σ)
    (members : List Identity) (h : GetGroupMembers c name w = (Res.ok members, w1)) :
    AllNamed members := by
  unfold GetGroupMembers at h
  rcases hg : GetGroup c name w with ⟨r, w2⟩
  rw [hg] at h
  cases r with
  | error e => simp at h
  | panic => simp at h
  | ok foundGroup =>
    simp only [] at h
    cases hid : foundGroup.Id with
    | none => rw [hid] at h; simp at h
    | some gid =>
      rw [hid] at h
      simp only [] at h
      rcases hm : callReadMembers c gid w2 with ⟨r2, w3⟩
      rw [hm] at h
      rcases r2 with e | response
      · simp at h
      · simp only [] at h
        rcases hd : GetIdentitiesByDescriptor c (",".intercalate response) w3 with ⟨r3, w4⟩
        rw [hd] at h
        cases r3 with
        | error e => simp at h
        | panic => simp at h
        | ok looked =>
          simp only [Prod.mk.injEq, Res.ok.injEq] at h
          intro m hm
          rw [← h.1, SortFunc] at hm
          have hm2 := (List.perm_insertionSort _ _).subset hm
          exact (List.mem_filter.mp hm2).2

theorem toAddLoop_mutations (c : Client σ) (members : List Identity) (ds : List TfString)
    (acc : List Identity) (w : World σ) :
    (toAddLoop c members ds acc w).2.mutations = w.mutations := by
  induction ds generalizing acc w with
  | nil => rfl
  | cons d rest ih =>
    simp only [toAddLoop]
    rcases hc : ContainsFunc d.ValueString members with _ | b
    · rfl
    · cases b with
      | true => exact ih acc w
      | false =>
        simp only []
        rcases hg : GetIdentityByName c d.ValueString w with ⟨r, w1⟩
        have h1 : w1.mutations = w.mutations := by
          have := getIdentityByName_mutations c d.ValueString w
          rwa [hg] at this
        cases r with
        | error e => exact h1
        | panic => exact h1
        | ok found =>
          simp only []
          rw [ih (acc ++ [found]) w1, h1]

theorem toAddLoop_append_ok (c : Client σ) (members : List Identity)
    (pre rest : List TfString) (acc acc1 : List Identity) (w w1 : World σ)
    (h : toAddLoop c members pre acc w = (Res.ok acc1, w1)) :
    toAddLoop c members (pre ++ rest) acc w = toAddLoop c members rest acc1 w1 := by
  induction pre generalizing acc w with
  | nil =>
    simp only [toAddLoop, Prod.mk.injEq, Res.ok.injEq] at h
    rw [List.nil_append, h.1, h.2]
  | cons d tl ih =>
    simp only [List.cons_append, toAddLoop] at h ⊢
    rcases hc : ContainsFunc d.ValueString members with _ | b
    · rw [hc] at h
      simp at h
    · rw [hc] at h
      cases b with
      | true => exact ih acc w h
      | false =>
        simp only [] at h ⊢
        rcases hg : GetIdentityByName c d.ValueString w with ⟨r, w2⟩
        rw [hg] at h
        cases r with
        | error e => simp at h
        | panic => simp at h
        | ok found => exact ih (acc ++ [found]) w2 h

theorem toAddLoop_unresolvable_head (c : Client σ) (members : List Identity)
    (hnamed : AllNamed members) (n : String) (post : List String) (acc : List Identity)
    (w : World σ) (hnot : n ∉ displayNames members)
    (hnone : ∀ s, (c.ReadIdentities (searchArgs n) s).1 = Except.ok []) :
    toAddLoop c members ((n :: post).map StringValue) acc w
      = (Res.error ("failed to find identity " ++ n ++ " in azure devops: %!w(<nil>)"),
          (callReadIdentities c (searchArgs n) w).2) := by
  simp only [List.map_cons, toAddLoop, StringValue, TfString.ValueString,
    containsFunc_of_allNamed n members hnamed, hnot, decide_False]
  rcases hg : GetIdentityByName c n w with ⟨r, w1⟩
  have h1 := getIdentityByName_none c n w (hnone w.remote)
  have h2 := getIdentityByName_snd c n w
  rw [hg] at h1 h2
  simp only [] at h1 h2
  rw [h1, h2]

theorem toAddLoop_not_ok (c : Client σ) (members : List Identity) (hnamed : AllNamed members)
    (n : String) (names : List String) (hn : n ∈ names) (hnot : n ∉ displayNames members)
    (hnone : ∀ s, (c.ReadIdentities (searchArgs n) s).1 = Except.ok [])
    (acc : List Identity) (w : World σ) (toAdd : List Identity) :
    (toAddLoop c members (names.map StringValue) acc w).1 ≠ Res.ok toAdd := by
  induction names generalizing acc w with
  | nil => simp at hn
  | cons m rest ih =>
    by_cases hmn : m = n
    · rw [hmn, toAddLoop_unresolvable_head c members hnamed n rest acc w hnot hnone]
      simp
    · have hrest : n ∈ rest := by
        rcases List.mem_cons.mp hn with h | h
        · exact absurd h.symm hmn
        · exact h
      simp only [List.map_cons, toAddLoop, StringValue, TfString.ValueString,
        containsFunc_of_allNamed m members hnamed]
      by_cases hm : m ∈ displayNames members
      · simp only [hm, decide_True]
        exact ih hrest acc w
      · simp only [hm, decide_False]
        rcases hg : GetIdentityByName c m w with ⟨r, w1⟩
        cases r with
        | error e => simp
        | panic => simp
        | ok found => exact ih hrest (acc ++ [found]) w1

theorem resolveLoop_mutations (c : Client σ) (ds : List TfString) (acc : List Identity)
    (w : World σ) : (resolveLoop c ds acc w).2.mutations = w.mutations := by
  induction ds generalizing acc w with
  | nil => rfl
  | cons d rest ih =>
    simp only [resolveLoop]
    rcases hg : GetIdentityByName c d.ValueString w with ⟨r, w1⟩
    have h1 : w1.mutations = w.mutations := by
      have := getIdentityByName_mutations c d.ValueString w
      rwa [hg] at this
    cases r with
    | error e => exact h1
    | panic => exact h1
    | ok found =>
      simp only []
      rw [ih (acc ++ [found]) w1, h1]

theorem resolveLoop_append_ok (c : Client σ) (pre rest : List TfString)
    (acc acc1 : List Identity) (w w1 : World σ)
    (h : resolveLoop c pre acc w = (Res.ok acc1, w1)) :
    resolveLoop c (pre ++ rest) acc w = resolveLoop c rest acc1 w1 := by
  induction pre generalizing acc w with
  | nil =>
    simp only [resolveLoop, Prod.mk.injEq, Res.ok.injEq] at h
    rw [List.nil_append, h.1, h.2]
  | cons d tl ih =>
    simp only [List.cons_append, resolveLoop] at h ⊢
    rcases hg : GetIdentityByName c d.ValueString w with ⟨r, w2⟩
    rw [hg] at h
    cases r with
    | error e => simp at h
    | panic => simp at h
    | ok found => exact ih (acc ++ [found]) w2 h

theorem resolveLoop_unresolvable_head (c : Client σ) (n : String) (post : List String)
    (acc : List Identity) (w : World σ)
    (hnone : ∀ s, (c.ReadIdentities (searchArgs n) s).1 = Except.ok []) :
    resolveLoop c ((n :: post).map StringValue) acc w
      = (Res.error ("failed to find identity " ++ n ++ " in azure devops: %!w(<nil>)"),
          (callReadIdentities c (searchArgs n) w).2) := by
  simp only [List.map_cons, resolveLoop, StringValue, TfString.ValueString]
  rcases hg : GetIdentityByName c n w with ⟨r, w1⟩
  have h1 := getIdentityByName_none c n w (hnone w.remote)
  have h2 := getIdentityByName_snd c n w
  rw [hg] at h1 h2
  simp only [] at h1 h2
  rw [h1, h2]

theorem resolveLoop_error (c : Client σ) (n : String) (names : List String) (hn : n ∈ names)
    (hnone : ∀ s, (c.ReadIdentities (searchArgs n) s).1 = Except.ok [])
    (acc : List Identity) (w : World σ) :
    ∃ msg, (resolveLoop c (names.map StringValue) acc w).1 = Res.error msg := by
  induction names generalizing acc w with
  | nil => simp at hn
  | cons m rest ih =>
    by_cases hmn : m = n
    · rw [hmn, resolveLoop_unresolvable_head c n rest acc w hnone]
      exact ⟨_, rfl⟩
    · have hrest : n ∈ rest := by
        rcases List.mem_cons.mp hn with h | h
        · exact absurd h.symm hmn
        · exact h
      simp only [List.map_cons, resolveLoop, StringValue, TfString.ValueString]
      rcases hg : GetIdentityByName c m w with ⟨r, w1⟩
      cases r with
      | error e => exact ⟨e, rfl⟩
      | panic => exact absurd (by rw [hg]) (getIdentityByName_ne_panic c m w)
      | ok found => exact ih hrest (acc ++ [found]) w1

/-! ## Lemmas on the apply phase -/

theorem addLoop_calls (c : Client σ) (g : Identity) (gid : String) (hg : g.Id = some gid)
    (toAdd : List Identity) (w : World σ) :
    ∃ issued later, (addLoop c g toAdd w).2.calls = w.calls ++ issued ∧
      issued ++ later = plannedAdds gid toAdd ∧
      ((addLoop c g toAdd w).1 = Res.ok () → later = []) := by
  induction toAdd generalizing w with
  | nil => exact ⟨[], [], by simp [addLoop], by simp [plannedAdds], fun _ => rfl⟩
  | cons a rest ih =>
    cases hid : a.Id with
    | none =>
      refine ⟨[], plannedAdds gid rest, ?_, ?_, ?_⟩
      · simp [addLoop, AddMemberToGroup, hg, hid]
      · simp [plannedAdds, hid]
      · simp [addLoop, AddMemberToGroup, hg, hid]
    | some aid =>
      have hplan : plannedAdds gid (a :: rest) = Call.AddMember gid aid :: plannedAdds gid rest := by
        simp [plannedAdds, hid]
      rcases hcall : (c.AddMember gid aid w.remote).1 with e | ack
      · refine ⟨[Call.AddMember gid aid], plannedAdds gid rest, ?_, by simp [hplan], ?_⟩
        · simp only [addLoop, AddMemberToGroup, hg, hid, callAddMember, hcall]
          cases a.ProviderDisplayName <;> cases g.ProviderDisplayName <;> simp
        · simp only [addLoop, AddMemberToGroup, hg, hid, callAddMember, hcall]
          cases a.ProviderDisplayName <;> cases g.ProviderDisplayName <;> simp
      · cases hname : a.CustomDisplayName with
        | none =>
          refine ⟨[Call.AddMember gid aid], plannedAdds gid rest, ?_, by simp [hplan], ?_⟩
          · simp [addLoop, AddMemberToGroup, hg, hid, callAddMember, hcall, hname]
          · simp [addLoop, AddMemberToGroup, hg, hid, callAddMember, hcall, hname]
        | some d =>
          obtain ⟨issued, later, h1, h2, h3⟩ :=
            ih ⟨(c.AddMember gid aid w.remote).2, w.calls ++ [Call.AddMember gid aid]⟩
          refine ⟨Call.AddMember gid aid :: issued, later, ?_, by simp [hplan, h2], ?_⟩
          · simp only [addLoop, AddMemberToGroup, hg, hid, callAddMember, hcall, hname]
            rw [h1]
            simp
          · simp only [addLoop, AddMemberToGroup, hg, hid, callAddMember, hcall, hname]
            exact h3

theorem removeLoop_calls (c : Client σ) (g : Identity) (gid : String) (hg : g.Id = some gid)
    (toRemove : List Identity) (w : World σ) :
    ∃ issued later, (removeLoop c g toRemove w).2.calls = w.calls ++ issued ∧
      issued ++ later = plannedRemoves gid toRemove ∧
      ((removeLoop c g toRemove w).1 = Res.ok () → later = []) := by
  induction toRemove generalizing w with
  | nil => exact ⟨[], [], by simp [removeLoop], by simp [plannedRemoves], fun _ => rfl⟩
  | cons a rest ih =>
    cases hid : a.Id with
    | none =>
      refine ⟨[], plannedRemoves gid rest, ?_, ?_, ?_⟩
      · simp [removeLoop, RemoveMemberFromGroup, hg, hid]
      · simp [plannedRemoves, hid]
      · simp [removeLoop, RemoveMemberFromGroup, hg, hid]
    | some aid =>
      have hplan : plannedRemoves gid (a :: rest)
          = Call.RemoveMember gid aid :: plannedRemoves gid rest := by
        simp [plannedRemoves, hid]
      rcases hcall : (c.RemoveMember gid aid w.remote).1 with e | ack
      · refine ⟨[Call.RemoveMember gid aid], plannedRemoves gid rest, ?_, by simp [hplan], ?_⟩
        · simp only [removeLoop, RemoveMemberFromGroup, hg, hid, callRemoveMember, hcall]
          cases a.CustomDisplayName <;> cases g.CustomDisplayName <;> simp
        · simp only [removeLoop, RemoveMemberFromGroup, hg, hid, callRemoveMember, hcall]
          cases a.CustomDisplayName <;> cases g.CustomDisplayName <;> simp
      · cases hname : a.CustomDisplayName with
        | none =>
          refine ⟨[Call.RemoveMember gid aid], plannedRemoves gid rest, ?_, by simp [hplan], ?_⟩
          · simp [removeLoop, RemoveMemberFromGroup, hg, hid, callRemoveMember, hcall, hname]
          · simp [removeLoop, RemoveMemberFromGroup, hg, hid, callRemoveMember, hcall, hname]
        | some d =>
          obtain ⟨issued, later, h1, h2, h3⟩ :=
            ih ⟨(c.RemoveMember gid aid w.remote).2, w.calls ++ [Call.RemoveMember gid aid]⟩
          refine ⟨Call.RemoveMember gid aid :: issued, later, ?_, by simp [hplan, h2], ?_⟩
          · simp only [removeLoop, RemoveMemberFromGroup, hg, hid, callRemoveMember, hcall, hname]
            rw [h1]
            simp
          · simp only [removeLoop, RemoveMemberFromGroup, hg, hid, callRemoveMember, hcall, hname]
            exact h3

/-- The calls the apply phase of `Update` issues are an initial part of the add calls
for `toAdd` followed by the remove calls for `toRemove`, and all of them when the phase
ends without error or panic. -/
theorem applyPhase_calls (c : Client σ) (data : GroupMembershipResourceModel) (g : Identity)
    (gid : String) (hg : g.Id = some gid) (toAdd toRemove : List Identity) (w : World σ) :
    ∃ issued later, (applyPhase c data g toAdd toRemove w).2.calls = w.calls ++ issued ∧
      issued ++ later = plannedAdds gid toAdd ++ plannedRemoves gid toRemove ∧
      ((applyPhase c data g toAdd toRemove w).1 = Res.ok data → later = []) := by
  obtain ⟨issued, later, h1, h2, h3⟩ := addLoop_calls c g gid hg toAdd w
  rcases hadd : addLoop c g toAdd w with ⟨r, w1⟩
  rw [hadd] at h1 h3
  simp only [] at h1 h3
  cases r with
  | error e =>
    exact ⟨issued, later ++ plannedRemoves gid toRemove, by simp [applyPhase, hadd, h1],
      by rw [← List.append_assoc, h2], by simp [applyPhase, hadd]⟩
  | panic =>
    exact ⟨issued, later ++ plannedRemoves gid toRemove, by simp [applyPhase, hadd, h1],
      by rw [← List.append_assoc, h2], by simp [applyPhase, hadd]⟩
  | ok u =>
    have hlater : later = [] := h3 rfl
    rw [hlater, List.append_nil] at h2
    obtain ⟨issued2, later2, k1, k2, k3⟩ := removeLoop_calls c g gid hg toRemove w1
    rcases hrem : removeLoop c g toRemove w1 with ⟨r2, w2⟩
    rw [hrem] at k1 k3
    simp only [] at k1 k3
    refine ⟨issued ++ issued2, later2, ?_, by rw [List.append_assoc, k2, h2], ?_⟩
    · cases r2 <;> simp [applyPhase, hadd, hrem, k1, h1]
    · cases r2 with
      | ok u2 => exact fun _ => k3 rfl
      | error e => simp [applyPhase, hadd, hrem]
      | panic => simp [applyPhase, hadd, hrem]

/-! ## Lemmas on the order of reads and mutations -/

theorem onlyReads_refl (w : World σ) : OnlyReads w w :=
  ⟨[], by simp, by simp⟩

theorem onlyReads_trans {w w1 w2 : World σ} (h1 : OnlyReads w w1) (h2 : OnlyReads w1 w2) :
    OnlyReads w w2 := by
  obtain ⟨r1, e1, p1⟩ := h1
  obtain ⟨r2, e2, p2⟩ := h2
  refine ⟨r1 ++ r2, by rw [e2, e1, List.append_assoc], ?_⟩
  intro x hx
  rcases List.mem_append.mp hx with h | h
  · exact p1 x h
  · exact p2 x h

theorem onlyMutations_refl (w : World σ) : OnlyMutations w w :=
  ⟨[], by simp, by simp⟩

theorem onlyMutations_trans {w w1 w2 : World σ} (h1 : OnlyMutations w w1)
    (h2 : OnlyMutations w1 w2) : OnlyMutations w w2 := by
  obtain ⟨r1, e1, p1⟩ := h1
  obtain ⟨r2, e2, p2⟩ := h2
  refine ⟨r1 ++ r2, by rw [e2, e1, List.append_assoc], ?_⟩
  intro x hx
  rcases List.mem_append.mp hx with h | h
  · exact p1 x h
  · exact p2 x h

theorem readsThenMutations_of (w w1 w2 : World σ) (h1 : OnlyReads w w1)
    (h2 : OnlyMutations w1 w2) : ReadsThenMutations w w2 := by
  obtain ⟨r1, e1, p1⟩ := h1
  obtain ⟨r2, e2, p2⟩ := h2
  exact ⟨r1, r2, by rw [e2, e1], p1, p2⟩

theorem readsThenMutations_of_reads (w w1 : World σ) (h1 : OnlyReads w w1) :
    ReadsThenMutations w w1 :=
  readsThenMutations_of w w1 w1 h1 (onlyMutations_refl w1)

theorem callReadIdentities_onlyReads (c : Client σ) (args : ReadIdentitiesArgs) (w : World σ) :
    OnlyReads w (callReadIdentities c args w).2 :=
  ⟨[Call.ReadIdentities args], rfl, by simp [Call.isMutation]⟩

theorem callListGroups_onlyReads (c : Client σ) (recurse : Bool) (w : World σ) :
    OnlyReads w (callListGroups c recurse w).2 :=
  ⟨[Call.ListGroups recurse], rfl, by simp [Call.isMutation]⟩

theorem callReadMembers_onlyReads (c : Client σ) (containerId : String) (w : World σ) :
    OnlyReads w (callReadMembers c containerId w).2 :=
  ⟨[Call.ReadMembers containerId], rfl, by simp [Call.isMutation]⟩

theorem getIdentityByName_onlyReads (c : Client σ) (n : String) (w : World σ) :
    OnlyReads w (GetIdentityByName c n w).2 := by
  rw [getIdentityByName_snd]
  exact callReadIdentities_onlyReads c (searchArgs n) w

theorem getIdentitiesByDescriptor_onlyReads (c : Client σ) (d : String) (w : World σ) :
    OnlyReads w (GetIdentitiesByDescriptor c d w).2 := by
  have hsnd : (GetIdentitiesByDescriptor c d w).2
      = (callReadIdentities c { Descriptors := some d } w).2 := by
    unfold GetIdentitiesByDescriptor
    rcases h : callReadIdentities c { Descriptors := some d } w with ⟨r, w1⟩
    rcases r with e | l
    · rfl
    · cases l <;> rfl
  rw [hsnd]
  exact callReadIdentities_onlyReads c _ w

theorem getGroup_snd (c : Client σ) (name : String) (w : World σ) :
    (GetGroup c name w).2 = (callListGroups c true w).2 := by
  unfold GetGroup
  rcases h : callListGroups c true w with ⟨r, w1⟩
  rcases r with e | l
  · rfl
  · simp only []
    split <;> rfl

theorem getGroup_onlyReads (c : Client σ) (name : String) (w : World σ) :
    OnlyReads w (GetGroup c name w).2 := by
  rw [getGroup_snd]
  exact callListGroups_onlyReads c true w

theorem getGroupMembers_onlyReads (c : Client σ) (name : String) (w : World σ) :
    OnlyReads w (GetGroupMembers c name w).2 := by
  unfold GetGroupMembers
  rcases hg : GetGroup c name w with ⟨r, w1⟩
  have h1 : OnlyReads w w1 := by
    have := getGroup_onlyReads c name w
    rwa [hg] at this
  cases r with
  | error e => exact h1
  | panic => exact h1
  | ok foundGroup =>
    simp only []
    cases hid : foundGroup.Id with
    | none => exact h1
    | some gid =>
      simp only []
      rcases hm : callReadMembers c gid w1 with ⟨r2, w2⟩
      have h2 : OnlyReads w w2 := by
        have := callReadMembers_onlyReads c gid w1
        rw [hm] at this
        exact onlyReads_trans h1 this
      rcases r2 with e | response
      · exact h2
      · simp only []
        rcases hd : GetIdentitiesByDescriptor c (",".intercalate response) w2 with ⟨r3, w3⟩
        have h3 : OnlyReads w w3 := by
          have := getIdentitiesByDescriptor_onlyReads c (",".intercalate response) w2
          rw [hd] at this
          exact onlyReads_trans h2 this
        cases r3 <;> exact h3

theorem toAddLoop_onlyReads (c : Client σ) (members : List Identity) (ds : List TfString)
    (acc : List Identity) (w : World σ) :
    OnlyReads w (toAddLoop c members ds acc w).2 := by
  induction ds generalizing acc w with
  | nil => exact onlyReads_refl w
  | cons d rest ih =>
    simp only [toAddLoop]
    rcases hc : ContainsFunc d.ValueString members with _ | b
    · exact onlyReads_refl w
    · cases b with
      | true => exact ih acc w
      | false =>
        simp only []
        rcases hg : GetIdentityByName c d.ValueString w with ⟨r, w1⟩
        have h1 : OnlyReads w w1 := by
          have := getIdentityByName_onlyReads c d.ValueString w
          rwa [hg] at this
        cases r with
        | error e => exact h1
        | panic => exact h1
        | ok found => exact onlyReads_trans h1 (ih (acc ++ [found]) w1)

theorem resolveLoop_onlyReads (c : Client σ) (ds : List TfString) (acc : List Identity)
    (w : World σ) : OnlyReads w (resolveLoop c ds acc w).2 := by
  induction ds generalizing acc w with
  | nil => exact onlyReads_refl w
  | cons d rest ih =>
    simp only [resolveLoop]
    rcases hg : GetIdentityByName c d.ValueString w with ⟨r, w1⟩
    have h1 : OnlyReads w w1 := by
      have := getIdentityByName_onlyReads c d.ValueString w
      rwa [hg] at this
    cases r with
    | error e => exact h1
    | panic => exact h1
    | ok found => exact onlyReads_trans h1 (ih (acc ++ [found]) w1)

theorem addMemberToGroup_onlyMutations (c : Client σ) (g a : Identity) (w : World σ) :
    OnlyMutations w (AddMemberToGroup c g a w).2 := by
  unfold AddMemberToGroup
  cases hg : g.Id with
  | none => exact onlyMutations_refl w
  | some gid =>
    cases ha : a.Id with
    | none => exact onlyMutations_refl w
    | some aid =>
      have hcall : OnlyMutations w (callAddMember c gid aid w).2 :=
        ⟨[Call.AddMember gid aid], rfl, by simp [Call.isMutation]⟩
      simp only []
      rcases hr : callAddMember c gid aid w with ⟨r, w1⟩
      rw [hr] at hcall
      rcases r with e | ack
      · simp only []
        cases a.ProviderDisplayName <;> cases g.ProviderDisplayName <;> exact hcall
      · exact hcall

theorem removeMemberFromGroup_onlyMutations (c : Client σ) (g a : Identity) (w : World σ) :
    OnlyMutations w (RemoveMemberFromGroup c g a w).2 := by
  unfold RemoveMemberFromGroup
  cases hg : g.Id with
  | none => exact onlyMutations_refl w
  | some gid =>
    cases ha : a.Id with
    | none => exact onlyMutations_refl w
    | some aid =>
      have hcall : OnlyMutations w (callRemoveMember c gid aid w).2 :=
        ⟨[Call.RemoveMember gid aid], rfl, by simp [Call.isMutation]⟩
      simp only []
      rcases hr : callRemoveMember c gid aid w with ⟨r, w1⟩
      rw [hr] at hcall
      rcases r with e | ack
      · simp only []
        cases a.CustomDisplayName <;> cases g.CustomDisplayName <;> exact hcall
      · exact hcall

theorem addLoop_onlyMutations (c : Client σ) (g : Identity) (toAdd : List Identity)
    (w : World σ) : OnlyMutations w (addLoop c g toAdd w).2 := by
  induction toAdd generalizing w with
  | nil => exact onlyMutations_refl w
  | cons a rest ih =>
    simp only [addLoop]
    rcases hr : AddMemberToGroup c g a w with ⟨r, w1⟩
    have h1 : OnlyMutations w w1 := by
      have := addMemberToGroup_onlyMutations c g a w
      rwa [hr] at this
    cases r with
    | error e => exact h1
    | panic => exact h1
    | ok u =>
      simp only []
      cases a.CustomDisplayName with
      | none => exact h1
      | some d => exact onlyMutations_trans h1 (ih w1)

theorem removeLoop_onlyMutations (c : Client σ) (g : Identity) (toRemove : List Identity)
    (w : World σ) : OnlyMutations w (removeLoop c g toRemove w).2 := by
  induction toRemove generalizing w with
  | nil => exact onlyMutations_refl w
  | cons a rest ih =>
    simp only [removeLoop]
    rcases hr : RemoveMemberFromGroup c g a w with ⟨r, w1⟩
    have h1 : OnlyMutations w w1 := by
      have := removeMemberFromGroup_onlyMutations c g a w
      rwa [hr] at this
    cases r with
    | error e => exact h1
    | panic => exact h1
    | ok u =>
      simp only []
      cases a.CustomDisplayName with
      | none => exact h1
      | some d => exact onlyMutations_trans h1 (ih w1)

theorem createAddLoop_onlyMutations (c : Client σ) (g : Identity) (found : List Identity)
    (w : World σ) : OnlyMutations w (createAddLoop c g found w).2 := by
  induction found generalizing w with
  | nil => exact onlyMutations_refl w
  | cons a rest ih =>
    simp only [createAddLoop]
    rcases hr : AddMemberToGroup c g a w with ⟨r, w1⟩
    have h1 : OnlyMutations w w1 := by
      have := addMemberToGroup_onlyMutations c g a w
      rwa [hr] at this
    cases r with
    | error e => exact h1
    | panic => exact h1
    | ok u =>
      simp only []
      cases a.ProviderDisplayName with
      | none => exact h1
      | some d =>
        cases g.ProviderDisplayName with
        | none => exact h1
        | some gname => exact onlyMutations_trans h1 (ih w1)

theorem applyPhase_onlyMutations (c : Client σ) (data : GroupMembershipResourceModel)
    (g : Identity) (toAdd toRemove : List Identity) (w : World σ) :
    OnlyMutations w (applyPhase c data g toAdd toRemove w).2 := by
  unfold applyPhase
  rcases ha : addLoop c g toAdd w with ⟨r, w1⟩
  have h1 : OnlyMutations w w1 := by
    have := addLoop_onlyMutations c g toAdd w
    rwa [ha] at this
  cases r with
  | error e => exact h1
  | panic => exact h1
  | ok u =>
    simp only []
    rcases hr : removeLoop c g toRemove w1 with ⟨r2, w2⟩
    have h2 : OnlyMutations w w2 := by
      have := removeLoop_onlyMutations c g toRemove w1
      rw [hr] at this
      exact onlyMutations_trans h1 this
    cases r2 <;> exact h2

theorem applyPhase_ok (c : Client σ) (data d : GroupMembershipResourceModel)
    (g : Identity) (toAdd toRemove : List Identity) (w : World σ)
    (h : (applyPhase c data g toAdd toRemove w).1 = Res.ok d) : d = data := by
  unfold applyPhase at h
  rcases ha : addLoop c g toAdd w with ⟨r, w1⟩
  rw [ha] at h
  cases r with
  | error e => simp at h
  | panic => simp at h
  | ok u =>
    simp only [] at h
    rcases hr : removeLoop c g toRemove w1 with ⟨r2, w2⟩
    rw [hr] at h
    cases r2 with
    | error e => simp at h
    | panic => simp at h
    | ok u2 =>
      simp only [Res.ok.injEq] at h
      exact h.symm

theorem diffAndApply_ok (c : Client σ) (data d : GroupMembershipResourceModel)
    (members : List Identity) (g : Identity) (w : World σ)
    (h : (diffAndApply c data members g w).1 = Res.ok d) : d = data := by
  unfold diffAndApply at h
  rcases ha : toAddLoop c members data.Members [] w with ⟨r, w1⟩
  rw [ha] at h
  cases r with
  | error e => simp at h
  | panic => simp at h
  | ok toAdd =>
    simp only [] at h
    cases hr : toRemoveLoop data.Members members [] with
    | none => rw [hr] at h; simp at h
    | some toRemove =>
      rw [hr] at h
      exact applyPhase_ok c data d g toAdd toRemove w1 h

theorem diffAndApply_readsThenMutations (c : Client σ) (data : GroupMembershipResourceModel)
    (members : List Identity) (g : Identity) (w0 w : World σ) (h0 : OnlyReads w0 w) :
    ReadsThenMutations w0 (diffAndApply c data members g w).2 := by
  unfold diffAndApply
  rcases ha : toAddLoop c members data.Members [] w with ⟨r, w1⟩
  have h1 : OnlyReads w0 w1 := by
    have := toAddLoop_onlyReads c members data.Members [] w
    rw [ha] at this
    exact onlyReads_trans h0 this
  cases r with
  | error e => exact readsThenMutations_of_reads w0 w1 h1
  | panic => exact readsThenMutations_of_reads w0 w1 h1
  | ok toAdd =>
    simp only []
    cases hr : toRemoveLoop data.Members members [] with
    | none => exact readsThenMutations_of_reads w0 w1 h1
    | some toRemove =>
      exact readsThenMutations_of w0 w1 _ h1 (applyPhase_onlyMutations c data g toAdd toRemove w1)

/-! ## Lemmas on the group scan -/

theorem scanGroups_of_no_match (name : String) (groups : List Identity)
    (h : ∀ g ∈ groups, g.ProviderDisplayName ≠ some name) : scanGroups name groups = {} := by
  induction groups with
  | nil => rfl
  | cons g rest ih =>
    have hg : g.ProviderDisplayName ≠ some name := h g (List.mem_cons_self _ _)
    simp only [scanGroups, hg, if_false]
    exact ih (fun x hx => h x (List.mem_cons_of_mem _ hx))

theorem scanGroups_first_match (name : String) (pre post : List Identity) (g : Identity)
    (hg : g.ProviderDisplayName = some name)
    (hpre : ∀ x ∈ pre, x.ProviderDisplayName ≠ some name) :
    scanGroups name (pre ++ g :: post) = g := by
  induction pre with
  | nil => simp [scanGroups, hg]
  | cons x rest ih =>
    have hx : x.ProviderDisplayName ≠ some name := hpre x (List.mem_cons_self _ _)
    simp only [List.cons_append, scanGroups, hx, if_false]
    exact ih (fun y hy => hpre y (List.mem_cons_of_mem _ hy))

/-! ## Lemmas on the failure path of the remove step -/

/-- When the remove call fails, `RemoveMemberFromGroup` returns an error if both
`CustomDisplayName`s are present and panics if one is absent. -/
theorem removeMemberFromGroup_failure (c : Client σ) (group member : Identity) (w : World σ)
    (gid mid cause : String) (hgid : group.Id = some gid) (hmid : member.Id = some mid)
    (hfail : (c.RemoveMember gid mid w.remote).1 = Except.error cause) :
    (∀ m g, member.CustomDisplayName = some m → group.CustomDisplayName = some g →
      (RemoveMemberFromGroup c group member w).1
        = Res.error ("failed to remove member " ++ m ++ " from group: " ++ g ++ ": " ++ cause)) ∧
    ((member.CustomDisplayName = none ∨ group.CustomDisplayName = none) →
      (RemoveMemberFromGroup c group member w).1 = Res.panic) := by
  constructor
  · intro m g hm hg
    simp [RemoveMemberFromGroup, hgid, hmid, callRemoveMember, hfail, hm, hg]
  · intro h
    rcases h with h | h
    · simp [RemoveMemberFromGroup, hgid, hmid, callRemoveMember, hfail, h]
    · cases hm : member.CustomDisplayName <;>
        simp [RemoveMemberFromGroup, hgid, hmid, callRemoveMember, hfail, h, hm]

/-! ## Lemmas on a failing apply operation -/

theorem scanGroups_zero_or_named (name : String) (groups : List Identity) :
    scanGroups name groups = {} ∨ (scanGroups name groups).ProviderDisplayName = some name := by
  induction groups with
  | nil => exact Or.inl rfl
  | cons x rest ih =>
    by_cases hx : x.ProviderDisplayName = some name
    · exact Or.inr (by simp [scanGroups, hx])
    · simpa [scanGroups, hx] using ih

theorem getGroup_ok_providerDisplayName (c : Client σ) (name : String) (w w1 : World σ)
    (g : Identity) (h : GetGroup c name w = (Res.ok g, w1)) :
    g.ProviderDisplayName = some name := by
  unfold GetGroup at h
  rcases hl : callListGroups c true w with ⟨r, w2⟩
  rw [hl] at h
  rcases r with e | groups
  · simp at h
  · simp only [] at h
    rcases scanGroups_zero_or_named name groups with hz | hn
    · simp [hz] at h
    · by_cases hzero : scanGroups name groups = {}
      · simp [hzero] at h
      · simp only [hzero, if_false, Prod.mk.injEq, Res.ok.injEq] at h
        rw [← h.1]
        exact hn

theorem addLoop_append_ok (c : Client σ) (g : Identity) (applied rest : List Identity)
    (w w1 : World σ) (h : addLoop c g applied w = (Res.ok (), w1)) :
    addLoop c g (applied ++ rest) w = addLoop c g rest w1 := by
  induction applied generalizing w with
  | nil =>
    simp only [addLoop, Prod.mk.injEq, true_and] at h
    rw [List.nil_append, h]
  | cons a tl ih =>
    simp only [List.cons_append, addLoop] at h ⊢
    rcases hr : AddMemberToGroup c g a w with ⟨r, w2⟩
    rw [hr] at h
    cases r with
    | error e => simp at h
    | panic => simp at h
    | ok u =>
      simp only [] at h ⊢
      cases hn : a.CustomDisplayName with
      | none => rw [hn] at h; simp at h
      | some d =>
        rw [hn] at h
        exact ih w2 h

theorem removeLoop_append_ok (c : Client σ) (g : Identity) (applied rest : List Identity)
    (w w1 : World σ) (h : removeLoop c g applied w = (Res.ok (), w1)) :
    removeLoop c g (applied ++ rest) w = removeLoop c g rest w1 := by
  induction applied generalizing w with
  | nil =>
    simp only [removeLoop, Prod.mk.injEq, true_and] at h
    rw [List.nil_append, h]
  | cons a tl ih =>
    simp only [List.cons_append, removeLoop] at h ⊢
    rcases hr : RemoveMemberFromGroup c g a w with ⟨r, w2⟩
    rw [hr] at h
    cases r with
    | error e => simp at h
    | panic => simp at h
    | ok u =>
      simp only [] at h ⊢
      cases hn : a.CustomDisplayName with
      | none => rw [hn] at h; simp at h
      | some d =>
        rw [hn] at h
        exact ih w2 h

theorem addLoop_ok_calls (c : Client σ) (g : Identity) (gid : String) (hg : g.Id = some gid)
    (applied : List Identity) (w w1 : World σ) (h : addLoop c g applied w = (Res.ok (), w1)) :
    w1.calls = w.calls ++ plannedAdds gid applied := by
  obtain ⟨issued, later, h1, h2, h3⟩ := addLoop_calls c g gid hg applied w
  rw [h] at h1 h3
  have hlater : later = [] := h3 rfl
  rw [hlater, List.append_nil] at h2
  rw [← h2]
  exact h1

theorem removeLoop_ok_calls (c : Client σ) (g : Identity) (gid : String)
    (hg : g.Id = some gid) (applied : List Identity) (w w1 : World σ)
    (h : removeLoop c g applied w = (Res.ok (), w1)) :
    w1.calls = w.calls ++ plannedRemoves gid applied := by
  obtain ⟨issued, later, h1, h2, h3⟩ := removeLoop_calls c g gid hg applied w
  rw [h] at h1 h3
  have hlater : later = [] := h3 rfl
  rw [hlater, List.append_nil] at h2
  rw [← h2]
  exact h1

theorem toRemoveLoop_subset (desired : List TfString) (members acc out : List Identity)
    (h : toRemoveLoop desired members acc = some out) :
    ∀ r ∈ out, r ∈ acc ∨ r ∈ members := by
  induction members generalizing acc with
  | nil =>
    simp only [toRemoveLoop, Option.some.injEq] at h
    intro r hr
    rw [← h] at hr
    exact Or.inl hr
  | cons m rest ih =>
    simp only [toRemoveLoop] at h
    cases hn : m.CustomDisplayName with
    | none => rw [hn] at h; simp at h
    | some d =>
      rw [hn] at h
      simp only [] at h
      intro r hr
      by_cases hc : desired.contains (StringValue d) = true
      · rw [if_pos hc] at h
        rcases ih acc h r hr with h1 | h1
        · exact Or.inl h1
        · exact Or.inr (List.mem_cons_of_mem _ h1)
      · rw [if_neg hc] at h
        rcases ih (acc ++ [m]) h r hr with h1 | h1
        · rcases List.mem_append.mp h1 with h2 | h2
          · exact Or.inl h2
          · exact Or.inr (by rw [List.mem_singleton.mp h2]; exact List.mem_cons_self _ _)
        · exact Or.inr (List.mem_cons_of_mem _ h1)

theorem update_eq_applyPhase (c : Client σ) (data : GroupMembershipResourceModel)
    (w w1 w2 w3 : World σ) (members : List Identity) (g : Identity)
    (toAdd toRemove : List Identity)
    (hmembers : GetGroupMembers c data.Group.ValueString w = (Res.ok members, w1))
    (hgroup : GetGroup c data.Group.ValueString w1 = (Res.ok g, w2))
    (hadd : toAddLoop c members data.Members [] w2 = (Res.ok toAdd, w3))
    (hrem : toRemoveLoop data.Members members [] = some toRemove) :
    Update c data w = applyPhase c data g toAdd toRemove w3 := by
  simp [Update, hmembers, hgroup, diffAndApply, hadd, hrem]

theorem applyPhase_add_fails (c : Client σ) (data : GroupMembershipResourceModel)
    (g : Identity) (applied pending toRemove : List Identity) (a : Identity) (w w1 : World σ)
    (gid aid cause p gname : String) (hgid : g.Id = some gid)
    (hgname : g.ProviderDisplayName = some gname)
    (happlied : addLoop c g applied w = (Res.ok (), w1)) (haid : a.Id = some aid)
    (hfail : (c.AddMember gid aid w1.remote).1 = Except.error cause)
    (hp : a.ProviderDisplayName = some p) :
    applyPhase c data g (applied ++ a :: pending) toRemove w
      = (Res.error ("failed to add member " ++ p ++ " to group: " ++ gname ++ ": " ++ cause),
          ⟨(c.AddMember gid aid w1.remote).2,
            w.calls ++ plannedAdds gid applied ++ [Call.AddMember gid aid]⟩) := by
  have hcalls := addLoop_ok_calls c g gid hgid applied w w1 happlied
  unfold applyPhase
  rw [addLoop_append_ok c g applied (a :: pending) w w1 happlied]
  simp [addLoop, AddMemberToGroup, callAddMember, hgid, hgname, haid, hfail, hp, hcalls]

theorem applyPhase_remove_fails (c : Client σ) (data : GroupMembershipResourceModel)
    (g : Identity) (toAdd applied pending : List Identity) (r : Identity) (w w1 w2 : World σ)
    (gid rid cause m gname : String) (hgid : g.Id = some gid)
    (hgname : g.CustomDisplayName = some gname)
    (hadds : addLoop c g toAdd w = (Res.ok (), w1))
    (happlied : removeLoop c g applied w1 = (Res.ok (), w2)) (hrid : r.Id = some rid)
    (hfail : (c.RemoveMember gid rid w2.remote).1 = Except.error cause)
    (hm : r.CustomDisplayName = some m) :
    applyPhase c data g toAdd (applied ++ r :: pending) w
      = (Res.error ("failed to remove member " ++ m ++ " from group: " ++ gname ++ ": " ++ cause),
          ⟨(c.RemoveMember gid rid w2.remote).2,
            w.calls ++ plannedAdds gid toAdd ++ plannedRemoves gid applied
              ++ [Call.RemoveMember gid rid]⟩) := by
  have hcalls1 := addLoop_ok_calls c g gid hgid toAdd w w1 hadds
  have hcalls2 := removeLoop_ok_calls c g gid hgid applied w1 w2 happlied
  unfold applyPhase
  rw [hadds]
  simp only []
  rw [removeLoop_append_ok c g applied (r :: pending) w1 w2 happlied]
  simp [removeLoop, RemoveMemberFromGroup, callRemoveMember, hgid, hgname, hrid, hfail, hm,
    hcalls1, hcalls2]

/-- When the add of `toAdd[0]` succeeds and the add of `toAdd[1]` fails, the apply phase
returns at once with a single error whose text names the failed operation only (the
member's and the group's `ProviderDisplayName` and the cause); the calls issued in the
phase are exactly these two adds. -/
theorem update_apply_second_add_fails (c : Client σ) (data : GroupMembershipResourceModel)
    (foundGroup a0 a1 : Identity) (rest toRemove : List Identity) (w : World σ)
    (gid gname i0 n0 i1 p1 cause : String) (ack : Bool)
    (hgid : foundGroup.Id = some gid) (hgname : foundGroup.ProviderDisplayName = some gname)
    (hi0 : a0.Id = some i0) (hn0 : a0.CustomDisplayName = some n0)
    (hi1 : a1.Id = some i1) (hp1 : a1.ProviderDisplayName = some p1)
    (hfirst : (c.AddMember gid i0 w.remote).1 = Except.ok ack)
    (hsecond : (c.AddMember gid i1 (c.AddMember gid i0 w.remote).2).1 = Except.error cause) :
    applyPhase c data foundGroup (a0 :: a1 :: rest) toRemove w
      = (Res.error ("failed to add member " ++ p1 ++ " to group: " ++ gname ++ ": " ++ cause),
          ⟨(c.AddMember gid i1 (c.AddMember gid i0 w.remote).2).2,
            w.calls ++ [Call.AddMember gid i0] ++ [Call.AddMember gid i1]⟩) := by
  simp [applyPhase, addLoop, AddMemberToGroup, callAddMember, hgid, hgname, hi0, hn0, hi1,
    hp1, hfirst, hsecond]

/-- The apply phase at Scenario D: Carol is added, the add of Dave fails, Alice and Bob
were to be removed. -/
theorem update_apply_second_add_fails_scenarioD :
    applyPhase (scripted scenarioD) (planFor ["Carol", "Dave"]) testers [carol, dave]
        [alice, bob] start
      = (Res.error "failed to add member Dave to group: Testers: connection reset",
          ⟨(), [Call.AddMember "g-1" "u-3", Call.AddMember "g-1" "u-4"]⟩) :=
  update_apply_second_add_fails (scripted scenarioD) (planFor ["Carol", "Dave"]) testers
    carol dave [] [alice, bob] start "g-1" "Testers" "u-3" "Carol" "u-4" "Dave"
    "connection reset" true rfl rfl rfl rfl rfl rfl rfl rfl

/-! ## The claims -/

/-- C1: for every list of desired names and every list of actual members carrying a
display name (as `GetGroupMembers` returns them), the first loop of `Update` yields
as `toAdd` the resolutions, by `GetIdentityByName` and in desired order, of exactly
the desired names that equal no actual display name, and the second loop yields as
`toRemove` exactly the actual members whose display name equals no desired name, in
actual order. -/
theorem update_diff_characterised (c : Client σ) (names : List String)
    (actual : List Identity) (h : AllNamed actual) (w : World σ) :
    toAddLoop c actual (names.map StringValue) [] w
        = resolveNames c (namesToAdd names actual) w ∧
    toRemoveLoop (names.map StringValue) actual []
        = some (membersToRemove names actual) := by
  constructor
  · rw [toAddLoop_eq_resolveNames c actual h names [] w]
    cases hr : (resolveNames c (namesToAdd names actual) w).1 <;>
      simp [Res.map, Prod.ext_iff, hr]
  · simpa using toRemoveLoop_eq_filter names actual h []

/-- Scenario A, by C1: with actual members Alice and Bob and desired names Alice and
Carol, `toAdd` is Carol alone and `toRemove` is Bob alone. -/
theorem update_diff_scenarioA :
    AllNamed [alice, bob] ∧
    (toAddLoop (scripted scenarioA) [alice, bob] (["Alice", "Carol"].map StringValue) []
        start).1 = Res.ok [carol] ∧
    toRemoveLoop (["Alice", "Carol"].map StringValue) [alice, bob] [] = some [bob] := by
  have hnamed : AllNamed [alice, bob] := by
    intro m hm
    simp only [List.mem_cons, List.mem_singleton, List.not_mem_nil, or_false] at hm
    rcases hm with rfl | rfl <;> rfl
  refine ⟨hnamed, ?_, ?_⟩
  · rw [(update_diff_characterised (scripted scenarioA) ["Alice", "Carol"] [alice, bob] hnamed
      start).1]
    decide
  · rw [(update_diff_characterised (scripted scenarioA) ["Alice", "Carol"] [alice, bob] hnamed
      start).2]
    decide

/-- C2: when every desired name is the display name of some actual member and every
actual member's display name is a desired name, the diff of `Update` has `toAdd` and
`toRemove` empty; the diff and apply phases then finish with the plan as state and
leave the world as it was, so no resolve, add or remove call is issued. -/
theorem update_diff_converged (c : Client σ) (data : GroupMembershipResourceModel)
    (names : List String) (actual : List Identity) (foundGroup : Identity) (w : World σ)
    (hdata : data.Members = names.map StringValue)
    (hdesired : ∀ n ∈ names, ∃ m ∈ actual, m.CustomDisplayName = some n)
    (hactual : ∀ m ∈ actual, ∃ n ∈ names, m.CustomDisplayName = some n) :
    toAddLoop c actual (names.map StringValue) [] w = (Res.ok [], w) ∧
    toRemoveLoop (names.map StringValue) actual [] = some [] ∧
    diffAndApply c data actual foundGroup w = (Res.ok data, w) := by
  have hnamed : AllNamed actual := by
    intro m hm
    obtain ⟨n, _, hn⟩ := hactual m hm
    simp [hn]
  have hadd : namesToAdd names actual = [] := by
    apply namesToAdd_eq_nil
    intro n hn
    obtain ⟨m, hm, hmn⟩ := hdesired n hn
    exact List.mem_map.mpr ⟨m, hm, by simp [displayName, hmn]⟩
  have hrem : membersToRemove names actual = [] := by
    apply membersToRemove_eq_nil
    intro m hm
    obtain ⟨n, hn, hmn⟩ := hactual m hm
    simpa [displayName, hmn] using hn
  have h1 : toAddLoop c actual (names.map StringValue) [] w = (Res.ok [], w) := by
    rw [toAddLoop_eq_resolveNames c actual hnamed names [] w, hadd]
    simp [resolveNames, Res.map]
  have h2 : toRemoveLoop (names.map StringValue) actual [] = some [] := by
    rw [toRemoveLoop_eq_filter names actual hnamed [], hrem]
    simp
  refine ⟨h1, h2, ?_⟩
  simp [diffAndApply, hdata, h1, h2, applyPhase, addLoop, removeLoop]

/-- C2 at a concrete input: actual members Alice and Bob, desired names Bob, Alice. -/
theorem update_diff_converged_example :
    toAddLoop (scripted scenarioA) [alice, bob] (["Bob", "Alice"].map StringValue) [] start
        = (Res.ok [], start) ∧
    toRemoveLoop (["Bob", "Alice"].map StringValue) [alice, bob] [] = some [] ∧
    diffAndApply (scripted scenarioA)
        ⟨StringValue "p", StringValue "Testers", ["Bob", "Alice"].map StringValue⟩
        [alice, bob] testers start
      = (Res.ok ⟨StringValue "p", StringValue "Testers", ["Bob", "Alice"].map StringValue⟩,
          start) :=
  update_diff_converged (scripted scenarioA)
    ⟨StringValue "p", StringValue "Testers", ["Bob", "Alice"].map StringValue⟩
    ["Bob", "Alice"] [alice, bob] testers start rfl (by decide) (by decide)

/-- C3: when the desired names are a proper superset of the actual display names and
every search for an extra name returns at least one identity, the diff of `Update` has
`toRemove` empty and `toAdd` non-empty, holding in order one identity per desired name
that is no actual display name, each the first result of the search for that name, and
nothing else. -/
theorem update_diff_desired_superset (c : Client σ) (names : List String)
    (actual : List Identity) (w : World σ) (hnamed : AllNamed actual)
    (hsup : ∀ m ∈ actual, displayName m ∈ names)
    (hproper : ∃ n ∈ names, n ∉ displayNames actual)
    (hres : ∀ n ∈ names, n ∉ displayNames actual → ∀ s, ∃ i rest,
      (c.ReadIdentities (searchArgs n) s).1 = Except.ok (i :: rest)) :
    toRemoveLoop (names.map StringValue) actual [] = some [] ∧
    ∃ toAdd, (toAddLoop c actual (names.map StringValue) [] w).1 = Res.ok toAdd ∧
      List.Forall₂ (Resolves c) (namesToAdd names actual) toAdd ∧ toAdd ≠ [] := by
  constructor
  · rw [toRemoveLoop_eq_filter names actual hnamed [], membersToRemove_eq_nil names actual hsup]
    simp
  · have hsub : ∀ n ∈ namesToAdd names actual, ∀ s, ∃ i rest,
        (c.ReadIdentities (searchArgs n) s).1 = Except.ok (i :: rest) := by
      intro n hn
      exact hres n (List.mem_of_mem_filter hn) (by simpa using (List.mem_filter.mp hn).2)
    obtain ⟨found, w1, hfound⟩ := resolveNames_succeeds c (namesToAdd names actual) hsub w
    have hforall := resolveNames_ok c (namesToAdd names actual) w w1 found hfound
    refine ⟨found, ?_, hforall, ?_⟩
    · rw [toAddLoop_eq_resolveNames c actual hnamed names [] w, hfound]
      simp [Res.map]
    · obtain ⟨n, hn, hnot⟩ := hproper
      have hmem : n ∈ namesToAdd names actual := by
        simp [namesToAdd, hn, hnot]
      intro hnil
      have hlen := hforall.length_eq
      rw [hnil] at hlen
      rw [List.length_eq_zero.mp hlen] at hmem
      simp at hmem

/-- C3 at a concrete input: actual members Alice and Bob, desired Alice, Carol, Bob. -/
theorem update_diff_desired_superset_example :
    toRemoveLoop (["Alice", "Carol", "Bob"].map StringValue) [alice, bob] [] = some [] ∧
    ∃ toAdd, (toAddLoop (scripted scenarioA) [alice, bob]
        (["Alice", "Carol", "Bob"].map StringValue) [] start).1 = Res.ok toAdd ∧
      List.Forall₂ (Resolves (scripted scenarioA))
        (namesToAdd ["Alice", "Carol", "Bob"] [alice, bob]) toAdd ∧ toAdd ≠ [] :=
  update_diff_desired_superset (scripted scenarioA) ["Alice", "Carol", "Bob"] [alice, bob]
    start (by decide) (by decide) (by decide)
    (by
      intro n hn _ s
      simp only [List.mem_cons, List.mem_singleton, List.not_mem_nil, or_false] at hn
      rcases hn with rfl | rfl | rfl
      · exact ⟨alice, [], rfl⟩
      · exact ⟨carol, [], rfl⟩
      · exact ⟨bob, [], rfl⟩)

/-- C4: when the actual display names are a proper superset of the desired names, the
diff of `Update` has `toAdd` empty without any search being issued (the world is
unchanged), and `toRemove` is non-empty and holds, in actual order, exactly the actual
members whose display name is no desired name. -/
theorem update_diff_actual_superset (c : Client σ) (names : List String)
    (actual : List Identity) (w : World σ) (hnamed : AllNamed actual)
    (hsup : ∀ n ∈ names, n ∈ displayNames actual)
    (hproper : ∃ m ∈ actual, displayName m ∉ names) :
    toAddLoop c actual (names.map StringValue) [] w = (Res.ok [], w) ∧
    ∃ toRemove, toRemoveLoop (names.map StringValue) actual [] = some toRemove ∧
      toRemove = actual.filter (fun m => decide (displayName m ∉ names)) ∧
      (∀ m, m ∈ toRemove ↔ m ∈ actual ∧ displayName m ∉ names) ∧ toRemove ≠ [] := by
  constructor
  · rw [toAddLoop_eq_resolveNames c actual hnamed names [] w, namesToAdd_eq_nil names actual hsup]
    simp [resolveNames, Res.map]
  · refine ⟨membersToRemove names actual, ?_, rfl, ?_, ?_⟩
    · simpa using toRemoveLoop_eq_filter names actual hnamed []
    · intro m
      simp [membersToRemove]
    · obtain ⟨m, hm, hnot⟩ := hproper
      intro hnil
      have hmem : m ∈ membersToRemove names actual := by
        simp [membersToRemove, hm, hnot]
      rw [hnil] at hmem
      simp at hmem

/-- C4 at a concrete input: actual members Alice and Bob, desired Alice alone. -/
theorem update_diff_actual_superset_example :
    toAddLoop (scripted scenarioA) [alice, bob] (["Alice"].map StringValue) [] start
        = (Res.ok [], start) ∧
    ∃ toRemove, toRemoveLoop (["Alice"].map StringValue) [alice, bob] [] = some toRemove ∧
      toRemove = [alice, bob].filter (fun m => decide (displayName m ∉ ["Alice"])) ∧
      (∀ m, m ∈ toRemove ↔ m ∈ [alice, bob] ∧ displayName m ∉ ["Alice"]) ∧ toRemove ≠ [] :=
  update_diff_actual_superset (scripted scenarioA) ["Alice"] [alice, bob] start
    (by decide) (by decide) (by decide)

/-- C5, as stated, fails: with Bob the only actual member (display name "Bob") and the
desired name being his sign-in address, which the search resolves to Bob, the diff of
`Update` has Bob, with one and the same id, in `toAdd` and in `toRemove`; the handler
then adds Bob to the group and removes him again. -/
theorem update_diff_shares_id :
    (toAddLoop (scripted scenarioSignIn) [bob] (["bob@corp.example"].map StringValue) []
        start).1 = Res.ok [bob] ∧
    toRemoveLoop (["bob@corp.example"].map StringValue) [bob] [] = some [bob] ∧
    (∃ a ∈ [bob], ∃ r ∈ [bob], a.Id = r.Id ∧ a.Id = some "u-2") ∧
    (Update (scripted scenarioSignIn) (planFor ["bob@corp.example"]) start).2.calls.filter
        Call.isMutation = [Call.AddMember "g-1" "u-2", Call.RemoveMember "g-1" "u-2"] := by
  refine ⟨by decide, by decide, ⟨bob, by simp, bob, by simp, rfl, rfl⟩, by decide⟩

/-- C5, amended: the diff of `Update` is disjoint by the display name it matched on.
Every `toAdd` entry is the first search result for a desired name that differs from the
display name of every `toRemove` member. When every search returns identities carrying
the searched name as display name, no `toAdd` entry has the display name of a `toRemove`
member, and then no id is in both unless one id comes with two display names. -/
theorem update_diff_disjoint_by_name (c : Client σ) (names : List String)
    (actual : List Identity) (w : World σ) (toAdd toRemove : List Identity)
    (hnamed : AllNamed actual)
    (hadd : (toAddLoop c actual (names.map StringValue) [] w).1 = Res.ok toAdd)
    (hrem : toRemoveLoop (names.map StringValue) actual [] = some toRemove) :
    (∃ resolvedFrom, List.Forall₂ (Resolves c) resolvedFrom toAdd ∧
      ∀ n ∈ resolvedFrom, n ∈ names ∧ ∀ r ∈ toRemove, r.CustomDisplayName ≠ some n) ∧
    ((∀ n i, Resolves c n i → i.CustomDisplayName = some n) →
      ∀ a ∈ toAdd, ∀ r ∈ toRemove, a.CustomDisplayName ≠ r.CustomDisplayName ∧
        ((a.Id = r.Id → a.CustomDisplayName = r.CustomDisplayName) → a.Id ≠ r.Id)) := by
  have hrem2 : toRemove = membersToRemove names actual := by
    have := toRemoveLoop_eq_filter names actual hnamed []
    rw [hrem] at this
    simpa using this
  rw [toAddLoop_eq_resolveNames c actual hnamed names [] w] at hadd
  rcases hres : resolveNames c (namesToAdd names actual) w with ⟨r0, w1⟩
  rw [hres] at hadd
  have hr0 : r0 = Res.ok toAdd := by
    cases r0 <;> simp [Res.map] at hadd
    rw [hadd]
  rw [hr0] at hres
  have hforall := resolveNames_ok c (namesToAdd names actual) w w1 toAdd hres
  have hdisj : ∀ n ∈ namesToAdd names actual,
      n ∈ names ∧ ∀ r ∈ toRemove, r.CustomDisplayName ≠ some n := by
    intro n hn
    have hnn : n ∈ names := List.mem_of_mem_filter hn
    refine ⟨hnn, ?_⟩
    intro r hr hrn
    rw [hrem2] at hr
    have hnot : displayName r ∉ names := by
      simpa [membersToRemove] using (List.mem_filter.mp hr).2
    apply hnot
    simpa [displayName, hrn] using hnn
  refine ⟨⟨namesToAdd names actual, hforall, hdisj⟩, ?_⟩
  intro hfaithful a ha r hr
  obtain ⟨n, hn, hna⟩ := forall₂_exists_left hforall a ha
  have hne : a.CustomDisplayName ≠ r.CustomDisplayName := by
    rw [hfaithful n a hna]
    exact fun h => (hdisj n hn).2 r hr h.symm
  exact ⟨hne, fun hkey hid => hne (hkey hid)⟩

/-- C5 amended, at Scenario A, whose searches return the identity carrying the searched
name: Carol, to add, and Bob, to remove, differ in display name and in id. -/
theorem update_diff_disjoint_scenarioA :
    (∃ resolvedFrom, List.Forall₂ (Resolves (scripted scenarioA)) resolvedFrom [carol] ∧
      ∀ n ∈ resolvedFrom, n ∈ ["Alice", "Carol"] ∧ ∀ r ∈ [bob], r.CustomDisplayName ≠ some n) ∧
    (∀ a ∈ [carol], ∀ r ∈ [bob], a.CustomDisplayName ≠ r.CustomDisplayName ∧ a.Id ≠ r.Id) := by
  have hfaithful : ∀ n i, Resolves (scripted scenarioA) n i → i.CustomDisplayName = some n := by
    rintro n i ⟨s, more, h⟩
    simp only [scripted, searchArgs, scenarioA, List.not_mem_nil, if_false] at h
    by_cases h1 : n = "Alice"
    · subst h1
      have h0 : [alice] = i :: more := by simpa [List.lookup] using h
      rw [← (List.cons.inj h0).1]
      rfl
    · by_cases h2 : n = "Bob"
      · subst h2
        have h0 : [bob] = i :: more := by simpa [List.lookup] using h
        rw [← (List.cons.inj h0).1]
        rfl
      · by_cases h3 : n = "Carol"
        · subst h3
          have h0 : [carol] = i :: more := by simpa [List.lookup] using h
          rw [← (List.cons.inj h0).1]
          rfl
        · have e1 : (n == "Alice") = false := by simp [h1]
          have e2 : (n == "Bob") = false := by simp [h2]
          have e3 : (n == "Carol") = false := by simp [h3]
          simp [List.lookup, e1, e2, e3] at h
  have h := update_diff_disjoint_by_name (scripted scenarioA) ["Alice", "Carol"] [alice, bob]
    start [carol] [bob] (by decide) (by decide) (by decide)
  refine ⟨h.1, ?_⟩
  intro a ha r hr
  have hboth := h.2 hfaithful a ha r hr
  refine ⟨hboth.1, hboth.2 ?_⟩
  simp only [List.mem_singleton] at ha hr
  subst ha
  subst hr
  intro hid
  exact absurd hid (by decide)

/-- C6: for a resolver whose searches answer the same in every remote state, and two
desired lists that are permutations of each other, the diffs of `Update` have the same
`toRemove` sequence, and whenever the first computes a `toAdd` the second computes one
that is a permutation of it (from whatever remote state each starts). -/
theorem update_diff_order_independent (c : Client σ) (names1 names2 : List String)
    (actual : List Identity) (w1 w2 : World σ) (hnamed : AllNamed actual)
    (hdet : Deterministic c) (hperm : names1.Perm names2) :
    toRemoveLoop (names1.map StringValue) actual []
        = toRemoveLoop (names2.map StringValue) actual [] ∧
    ∀ toAdd1, (toAddLoop c actual (names1.map StringValue) [] w1).1 = Res.ok toAdd1 →
      ∃ toAdd2, (toAddLoop c actual (names2.map StringValue) [] w2).1 = Res.ok toAdd2 ∧
        toAdd1.Perm toAdd2 := by
  constructor
  · rw [toRemoveLoop_eq_filter names1 actual hnamed [],
      toRemoveLoop_eq_filter names2 actual hnamed [], membersToRemove_perm names1 names2 actual hperm]
  · intro toAdd1 h1
    rw [toAddLoop_eq_resolveNames c actual hnamed names1 [] w1] at h1
    rcases hres : resolveNames c (namesToAdd names1 actual) w1 with ⟨r0, w3⟩
    rw [hres] at h1
    have hr0 : r0 = Res.ok toAdd1 := by
      cases r0 <;> simp [Res.map] at h1
      rw [h1]
    rw [hr0] at hres
    have hforall := resolveNames_ok c (namesToAdd names1 actual) w1 w3 toAdd1 hres
    have hfilter : (namesToAdd names2 actual).Perm (namesToAdd names1 actual) :=
      (hperm.filter _).symm
    obtain ⟨toAdd2, h2, hp⟩ := List.perm_comp_forall₂ hfilter hforall
    refine ⟨toAdd2, ?_, hp.symm⟩
    rw [toAddLoop_eq_resolveNames c actual hnamed names2 [] w2,
      resolveNames_of_forall₂ c hdet (namesToAdd names2 actual) toAdd2 h2 w2]
    simp [Res.map]

/-- C6 at a concrete input: actual member Alice, desired lists Carol, Bob, Alice and
Alice, Bob, Carol give `toAdd` Carol, Bob and Bob, Carol. -/
theorem update_diff_order_independent_example :
    toRemoveLoop (["Carol", "Bob", "Alice"].map StringValue) [alice] []
        = toRemoveLoop (["Alice", "Bob", "Carol"].map StringValue) [alice] [] ∧
    ∀ toAdd1, (toAddLoop (scripted scenarioA) [alice]
        (["Carol", "Bob", "Alice"].map StringValue) [] start).1 = Res.ok toAdd1 →
      ∃ toAdd2, (toAddLoop (scripted scenarioA) [alice]
          (["Alice", "Bob", "Carol"].map StringValue) [] start).1 = Res.ok toAdd2 ∧
        toAdd1.Perm toAdd2 :=
  update_diff_order_independent (scripted scenarioA) ["Carol", "Bob", "Alice"]
    ["Alice", "Bob", "Carol"] [alice] start start (by decide) (fun _ _ _ => rfl) (by decide)

/-- C7, as stated, fails: `Update` and `Create` end with the error of the first failing
resolution, whichever desired name it belongs to. With desired names Ghost and Phantom,
neither in the directory nor among the actual members Alice and Bob, the error reports
Ghost and does not report Phantom; with desired names Carol and Ghost, where the search
for Carol fails in transport, the error reports no unmatched name at all. -/
theorem update_reports_first_failure_only :
    (((scripted scenarioA).ReadIdentities (searchArgs "Phantom") ()).1 = Except.ok [] ∧
      "Phantom" ∉ displayNames [alice, bob] ∧
      (Update (scripted scenarioA) (planFor ["Ghost", "Phantom"]) start).1
        = Res.error "failed to find identity Ghost in azure devops: %!w(<nil>)" ∧
      (Create (scripted scenarioA) (planFor ["Ghost", "Phantom"]) start).1
        = Res.error "failed to find identity Ghost in azure devops: %!w(<nil>)" ∧
      ¬ ("Phantom".toList <:+:
          "failed to find identity Ghost in azure devops: %!w(<nil>)".toList)) ∧
    (((scripted scenarioOutage).ReadIdentities (searchArgs "Ghost") ()).1 = Except.ok [] ∧
      "Ghost" ∉ displayNames [alice, bob] ∧
      (Update (scripted scenarioOutage) (planFor ["Carol", "Ghost"]) start).1
        = Res.error "failed to read identities from azure devops: connection reset" ∧
      (Create (scripted scenarioOutage) (planFor ["Carol", "Ghost"]) start).1
        = Res.error "failed to read identities from azure devops: connection reset" ∧
      ¬ ("Ghost".toList <:+:
          "failed to read identities from azure devops: connection reset".toList)) := by
  refine ⟨⟨rfl, by decide, by decide, by decide, by decide⟩,
    ⟨rfl, by decide, by decide, by decide, by decide⟩⟩

/-- C7, amended: if the desired list contains a name whose search returns no identity
and which is no actual member's display name, then `Update` does not succeed and issues
no `AddMember` or `RemoveMember` call; when the member listing and the group lookup
succeeded and every desired name before that one was skipped or resolved, the error is
the one reporting that name. Likewise `Create` (which resolves every desired name)
returns an error and issues no mutation call, the error reporting that name when every
desired name before it resolved. -/
theorem update_unresolvable_name (c : Client σ) (data : GroupMembershipResourceModel)
    (w : World σ) (n : String) (pre post : List String)
    (hdata : data.Members = (pre ++ n :: post).map StringValue)
    (hnone : ∀ s, (c.ReadIdentities (searchArgs n) s).1 = Except.ok [])
    (hnot : ∀ members w1, GetGroupMembers c data.Group.ValueString w = (Res.ok members, w1) →
      n ∉ displayNames members) :
    ((∀ d, (Update c data w).1 ≠ Res.ok d) ∧
      (Update c data w).2.mutations = w.mutations ∧
      ∀ members w1 foundGroup w2 toAdd w3,
        GetGroupMembers c data.Group.ValueString w = (Res.ok members, w1) →
        GetGroup c data.Group.ValueString w1 = (Res.ok foundGroup, w2) →
        toAddLoop c members (pre.map StringValue) [] w2 = (Res.ok toAdd, w3) →
        (Update c data w).1
          = Res.error ("failed to find identity " ++ n ++ " in azure devops: %!w(<nil>)")) ∧
    ((∃ msg, (Create c data w).1 = Res.error msg) ∧
      (Create c data w).2.mutations = w.mutations ∧
      ∀ found w3, resolveLoop c (pre.map StringValue) [] w = (Res.ok found, w3) →
        (Create c data w).1
          = Res.error ("failed to find identity " ++ n ++ " in azure devops: %!w(<nil>)")) := by
  have hmem : n ∈ pre ++ n :: post := by simp
  refine ⟨?_, ?_⟩
  · have hthird : ∀ members w1 foundGroup w2 toAdd w3,
        GetGroupMembers c data.Group.ValueString w = (Res.ok members, w1) →
        GetGroup c data.Group.ValueString w1 = (Res.ok foundGroup, w2) →
        toAddLoop c members (pre.map StringValue) [] w2 = (Res.ok toAdd, w3) →
        (Update c data w).1
          = Res.error ("failed to find identity " ++ n ++ " in azure devops: %!w(<nil>)") := by
      intro members w1 foundGroup w2 toAdd w3 h1 h2 h3
      have hnamed := getGroupMembers_allNamed c _ w w1 members h1
      have happ := toAddLoop_append_ok c members (pre.map StringValue)
        ((n :: post).map StringValue) [] toAdd w2 w3 h3
      rw [toAddLoop_unresolvable_head c members hnamed n post toAdd w3 (hnot members w1 h1) hnone,
        ← List.map_append] at happ
      rw [← hdata] at happ
      simp [Update, h1, h2, diffAndApply, happ]
    have hfirst : (∀ d, (Update c data w).1 ≠ Res.ok d) ∧
        (Update c data w).2.mutations = w.mutations := by
      rcases hm : GetGroupMembers c data.Group.ValueString w with ⟨r, w1⟩
      have hw1 : w1.mutations = w.mutations := by
        have := getGroupMembers_mutations c data.Group.ValueString w
        rwa [hm] at this
      cases r with
      | error e => exact ⟨by simp [Update, hm], by simp [Update, hm, hw1]⟩
      | panic => exact ⟨by simp [Update, hm], by simp [Update, hm, hw1]⟩
      | ok members =>
        have hnamed := getGroupMembers_allNamed c _ w w1 members hm
        rcases hg : GetGroup c data.Group.ValueString w1 with ⟨r2, w2⟩
        have hw2 : w2.mutations = w.mutations := by
          have := getGroup_mutations c data.Group.ValueString w1
          rw [hg] at this
          rw [← hw1]
          exact this
        cases r2 with
        | error e => exact ⟨by simp [Update, hm, hg], by simp [Update, hm, hg, hw2]⟩
        | panic => exact ⟨by simp [Update, hm, hg], by simp [Update, hm, hg, hw2]⟩
        | ok foundGroup =>
          rcases ht : toAddLoop c members data.Members [] w2 with ⟨r3, w3⟩
          have hw3 : w3.mutations = w.mutations := by
            have := toAddLoop_mutations c members data.Members [] w2
            rw [ht] at this
            rw [← hw2]
            exact this
          have hnotok : ∀ toAdd, r3 ≠ Res.ok toAdd := by
            intro toAdd
            have := toAddLoop_not_ok c members hnamed n (pre ++ n :: post) hmem
              (hnot members w1 hm) hnone [] w2 toAdd
            rw [← hdata, ht] at this
            exact this
          cases r3 with
          | ok toAdd => exact absurd rfl (hnotok toAdd)
          | error e =>
            exact ⟨by simp [Update, hm, hg, diffAndApply, ht],
              by simp [Update, hm, hg, diffAndApply, ht, hw3]⟩
          | panic =>
            exact ⟨by simp [Update, hm, hg, diffAndApply, ht],
              by simp [Update, hm, hg, diffAndApply, ht, hw3]⟩
    exact ⟨hfirst.1, hfirst.2, hthird⟩
  · obtain ⟨msg, hmsg⟩ := resolveLoop_error c n (pre ++ n :: post) hmem hnone [] w
    rw [← hdata] at hmsg
    rcases hr : resolveLoop c data.Members [] w with ⟨r, w1⟩
    have hw1 : w1.mutations = w.mutations := by
      have := resolveLoop_mutations c data.Members [] w
      rwa [hr] at this
    rw [hr] at hmsg
    simp only [] at hmsg
    refine ⟨⟨msg, by simp [Create, hr, hmsg]⟩, by simp [Create, hr, hmsg, hw1], ?_⟩
    intro found w3 h3
    have happ := resolveLoop_append_ok c (pre.map StringValue)
      ((n :: post).map StringValue) [] found w w3 h3
    rw [resolveLoop_unresolvable_head c n post found w3 hnone, ← List.map_append, ← hdata] at happ
    simp [Create, happ]

/-- C7 amended, at a concrete input: members Alice and Bob, desired Alice, Ghost, Carol,
where Ghost is not in the directory: `Update` and `Create` fail reporting Ghost and issue
no mutation call. -/
theorem update_unresolvable_name_example :
    (Update (scripted scenarioA) (planFor ["Alice", "Ghost", "Carol"]) start).1
      = Res.error "failed to find identity Ghost in azure devops: %!w(<nil>)" ∧
    (Update (scripted scenarioA) (planFor ["Alice", "Ghost", "Carol"]) start).2.mutations = [] ∧
    (Create (scripted scenarioA) (planFor ["Alice", "Ghost", "Carol"]) start).1
      = Res.error "failed to find identity Ghost in azure devops: %!w(<nil>)" ∧
    (Create (scripted scenarioA) (planFor ["Alice", "Ghost", "Carol"]) start).2.mutations = [] := by
  have hmembers : GetGroupMembers (scripted scenarioA) "Testers" start
      = (Res.ok [alice, bob], (GetGroupMembers (scripted scenarioA) "Testers" start).2) :=
    Prod.ext (by decide) rfl
  have h := update_unresolvable_name (scripted scenarioA) (planFor ["Alice", "Ghost", "Carol"])
    start "Ghost" ["Alice"] ["Carol"] rfl (fun _ => rfl)
    (by
      intro members w1 hm
      have hm1 : (GetGroupMembers (scripted scenarioA) "Testers" start).1 = Res.ok members := by
        rw [show (planFor ["Alice", "Ghost", "Carol"]).Group.ValueString = "Testers" from rfl] at hm
        rw [hm]
      rw [hmembers] at hm1
      simp only [Res.ok.injEq] at hm1
      rw [← hm1]
      decide)
  refine ⟨?_, h.1.2.1, ?_, h.2.2.1⟩
  · exact h.1.2.2 [alice, bob] _ testers
      (GetGroup (scripted scenarioA) "Testers"
        (GetGroupMembers (scripted scenarioA) "Testers" start).2).2
      [] _ hmembers (Prod.ext (by decide) rfl) rfl
  · exact h.2.2.2 [alice] _ (Prod.ext (by decide) rfl)

/-- C8, the code at the failing input: Alice is the only member, the desired names are
Alice, Carol, Dave, and the search returns Carol without a `CustomDisplayName`. The diff
is `toAdd` Carol, Dave and `toRemove` empty and no remote call fails, yet `Update` issues
the add of Carol alone and then panics on the log line that dereferences her
`CustomDisplayName`: the add of Dave is never issued and no state is saved. -/
theorem update_apply_crashes_after_unnamed_add :
    (toAddLoop (scripted scenarioUnnamed) [alice]
        (["Alice", "Carol", "Dave"].map StringValue) [] start).1 = Res.ok [carolUnnamed, dave] ∧
    toRemoveLoop (["Alice", "Carol", "Dave"].map StringValue) [alice] [] = some [] ∧
    (∀ memberId s, ((scripted scenarioUnnamed).AddMember "g-1" memberId s).1 = Except.ok true) ∧
    (Update (scripted scenarioUnnamed) (planFor ["Alice", "Carol", "Dave"]) start).1
      = Res.panic ∧
    (Update (scripted scenarioUnnamed) (planFor ["Alice", "Carol", "Dave"]) start).2.mutations
      = [Call.AddMember "g-1" "u-3"] := by
  refine ⟨by decide, by decide, fun _ _ => rfl, by decide, by decide⟩

/-- C9, as stated, fails: in two passes whose first add succeeds and whose second add
(of Dave) fails, one with Carol applied and Dave, Alice, Bob pending, the other with Erin
applied and Dave alone pending, `Update` returns the very same error, a text naming the
failed add only; so nothing read off the returned error can be the applied or pending
operations of both passes. -/
theorem update_error_omits_applied_and_pending :
    (toAddLoop (scripted scenarioD) [alice, bob] (["Carol", "Dave"].map StringValue) []
        start).1 = Res.ok [carol, dave] ∧
    toRemoveLoop (["Carol", "Dave"].map StringValue) [alice, bob] [] = some [alice, bob] ∧
    (toAddLoop (scripted scenarioD2) [alice] (["Alice", "Erin", "Dave"].map StringValue) []
        start).1 = Res.ok [erin, dave] ∧
    toRemoveLoop (["Alice", "Erin", "Dave"].map StringValue) [alice] [] = some [] ∧
    (Update (scripted scenarioD) (planFor ["Carol", "Dave"]) start).2.mutations
      = [Call.AddMember "g-1" "u-3", Call.AddMember "g-1" "u-4"] ∧
    (Update (scripted scenarioD2) (planFor ["Alice", "Erin", "Dave"]) start).2.mutations
      = [Call.AddMember "g-1" "u-5", Call.AddMember "g-1" "u-4"] ∧
    (Update (scripted scenarioD) (planFor ["Carol", "Dave"]) start).1
      = Res.error "failed to add member Dave to group: Testers: connection reset" ∧
    (Update (scripted scenarioD2) (planFor ["Alice", "Erin", "Dave"]) start).1
      = Res.error "failed to add member Dave to group: Testers: connection reset" ∧
    ¬ ∃ applied : Res GroupMembershipResourceModel → List Identity,
        applied (Update (scripted scenarioD) (planFor ["Carol", "Dave"]) start).1 = [carol] ∧
        applied (Update (scripted scenarioD2) (planFor ["Alice", "Erin", "Dave"]) start).1
          = [erin] := by
  have h1 : (Update (scripted scenarioD) (planFor ["Carol", "Dave"]) start).1
      = Res.error "failed to add member Dave to group: Testers: connection reset" := by decide
  have h2 : (Update (scripted scenarioD2) (planFor ["Alice", "Erin", "Dave"]) start).1
      = Res.error "failed to add member Dave to group: Testers: connection reset" := by decide
  refine ⟨by decide, by decide, by decide, by decide, by decide, by decide, h1, h2, ?_⟩
  rintro ⟨applied, ha, hb⟩
  rw [h1] at ha
  rw [h2, ha] at hb
  exact absurd hb (by decide)

/-- C9, amended: when an apply operation of `Update` fails after the operations before
it went through, and the display-name field its error text dereferences is present (the
member's `ProviderDisplayName` for an add, the group's `CustomDisplayName` for a remove),
`Update` returns at once with a single error whose text names the failed operation only:
the member, the group and the cause. No state is saved and the failing call is the last
call issued: the log holds the calls of the operations already applied and the failing
one, nothing of the operations not yet attempted. In particular, when the add of
`toAdd[0]` succeeds and the add of `toAdd[1]` fails, the error is the text for `toAdd[1]`
and the apply phase issued exactly these two adds. -/
theorem update_apply_failure (c : Client σ) (data : GroupMembershipResourceModel)
    (w w1 w2 w3 : World σ) (members : List Identity) (g : Identity)
    (toAdd toRemove : List Identity) (gid : String)
    (hmembers : GetGroupMembers c data.Group.ValueString w = (Res.ok members, w1))
    (hgroup : GetGroup c data.Group.ValueString w1 = (Res.ok g, w2))
    (hadd : toAddLoop c members data.Members [] w2 = (Res.ok toAdd, w3))
    (hrem : toRemoveLoop data.Members members [] = some toRemove)
    (hgid : g.Id = some gid) :
    (∀ applied a pending w4 aid cause p,
      toAdd = applied ++ a :: pending → addLoop c g applied w3 = (Res.ok (), w4) →
      a.Id = some aid → (c.AddMember gid aid w4.remote).1 = Except.error cause →
      a.ProviderDisplayName = some p →
      Update c data w
        = (Res.error ("failed to add member " ++ p ++ " to group: " ++ data.Group.ValueString
              ++ ": " ++ cause),
            ⟨(c.AddMember gid aid w4.remote).2,
              w3.calls ++ plannedAdds gid applied ++ [Call.AddMember gid aid]⟩)) ∧
    (∀ applied r pending w4 w5 rid cause gname,
      toRemove = applied ++ r :: pending → addLoop c g toAdd w3 = (Res.ok (), w4) →
      removeLoop c g applied w4 = (Res.ok (), w5) → r.Id = some rid →
      (c.RemoveMember gid rid w5.remote).1 = Except.error cause →
      g.CustomDisplayName = some gname →
      Update c data w
        = (Res.error ("failed to remove member " ++ displayName r ++ " from group: " ++ gname
              ++ ": " ++ cause),
            ⟨(c.RemoveMember gid rid w5.remote).2,
              w3.calls ++ plannedAdds gid toAdd ++ plannedRemoves gid applied
                ++ [Call.RemoveMember gid rid]⟩)) ∧
    (∀ a0 a1 rest i0 n0 i1 p1 cause ack,
      toAdd = a0 :: a1 :: rest → a0.Id = some i0 → a0.CustomDisplayName = some n0 →
      a1.Id = some i1 → a1.ProviderDisplayName = some p1 →
      (c.AddMember gid i0 w3.remote).1 = Except.ok ack →
      (c.AddMember gid i1 (c.AddMember gid i0 w3.remote).2).1 = Except.error cause →
      Update c data w
        = (Res.error ("failed to add member " ++ p1 ++ " to group: " ++ data.Group.ValueString
              ++ ": " ++ cause),
            ⟨(c.AddMember gid i1 (c.AddMember gid i0 w3.remote).2).2,
              w3.calls ++ [Call.AddMember gid i0] ++ [Call.AddMember gid i1]⟩)) := by
  have hupd := update_eq_applyPhase c data w w1 w2 w3 members g toAdd toRemove hmembers hgroup
    hadd hrem
  have hgname := getGroup_ok_providerDisplayName c data.Group.ValueString w1 w2 g hgroup
  have hnamed := getGroupMembers_allNamed c data.Group.ValueString w w1 members hmembers
  refine ⟨?_, ?_, ?_⟩
  · intro applied a pending w4 aid cause p hsplit happlied haid hfail hp
    rw [hupd, hsplit]
    exact applyPhase_add_fails c data g applied pending toRemove a w3 w4 gid aid cause p
      data.Group.ValueString hgid hgname happlied haid hfail hp
  · intro applied r pending w4 w5 rid cause gname hsplit hadds happlied hrid hfail hgcustom
    have hr : r ∈ members := by
      have hin : r ∈ toRemove := by rw [hsplit]; simp
      rcases toRemoveLoop_subset data.Members members [] toRemove hrem r hin with h | h
      · simp at h
      · exact h
    obtain ⟨d, hd⟩ := Option.isSome_iff_exists.mp (hnamed r hr)
    have hdn : displayName r = d := by simp [displayName, hd]
    rw [hupd, hsplit, hdn]
    exact applyPhase_remove_fails c data g toAdd applied pending r w3 w4 w5 gid rid cause d
      gname hgid hgcustom hadds happlied hrid hfail hd
  · intro a0 a1 rest i0 n0 i1 p1 cause ack hsplit hi0 hn0 hi1 hp1 hfirst hsecond
    rw [hupd, hsplit]
    exact update_apply_second_add_fails c data g a0 a1 rest toRemove w3 gid
      data.Group.ValueString i0 n0 i1 p1 cause ack hgid hgname hi0 hn0 hi1 hp1 hfirst hsecond

/-- C9 amended, at two concrete passes. At Scenario D Carol is added and the add of Dave
fails: the error names Dave and Testers, and the two adds are the last calls. At the group
Reviewers, which carries a custom display name, the remove of Bob fails: the error names
Bob and Reviewers, and the remove is the last call. -/
theorem update_apply_failure_examples :
    ((Update (scripted scenarioD) (planFor ["Carol", "Dave"]) start).1
        = Res.error "failed to add member Dave to group: Testers: connection reset" ∧
      (Update (scripted scenarioD) (planFor ["Carol", "Dave"]) start).2.mutations
        = [Call.AddMember "g-1" "u-3", Call.AddMember "g-1" "u-4"]) ∧
    ((Update (scripted scenarioReviewers) (reviewersPlan ["Alice"]) start).1
        = Res.error "failed to remove member Bob from group: Reviewers: connection reset" ∧
      (Update (scripted scenarioReviewers) (reviewersPlan ["Alice"]) start).2.mutations
        = [Call.RemoveMember "g-5" "u-2"]) := by
  have hD := update_apply_failure (scripted scenarioD) (planFor ["Carol", "Dave"]) start
    (GetGroupMembers (scripted scenarioD) "Testers" start).2
    (GetGroup (scripted scenarioD) "Testers"
      (GetGroupMembers (scripted scenarioD) "Testers" start).2).2
    (toAddLoop (scripted scenarioD) [alice, bob] (["Carol", "Dave"].map StringValue) []
      (GetGroup (scripted scenarioD) "Testers"
        (GetGroupMembers (scripted scenarioD) "Testers" start).2).2).2
    [alice, bob] testers [carol, dave] [alice, bob] "g-1"
    (Prod.ext (by decide) rfl) (Prod.ext (by decide) rfl) (Prod.ext (by decide) rfl)
    (by decide) rfl
  have hD1 := hD.1 [carol] dave []
    (addLoop (scripted scenarioD) testers [carol]
      (toAddLoop (scripted scenarioD) [alice, bob] (["Carol", "Dave"].map StringValue) []
        (GetGroup (scripted scenarioD) "Testers"
          (GetGroupMembers (scripted scenarioD) "Testers" start).2).2).2).2
    "u-4" "connection reset" "Dave" rfl (Prod.ext (by decide) rfl) rfl rfl rfl
  have hD2 := hD.2.2 carol dave [] "u-3" "Carol" "u-4" "Dave" "connection reset" true
    rfl rfl rfl rfl rfl rfl rfl
  have hR := update_apply_failure (scripted scenarioReviewers) (reviewersPlan ["Alice"]) start
    (GetGroupMembers (scripted scenarioReviewers) "Reviewers" start).2
    (GetGroup (scripted scenarioReviewers) "Reviewers"
      (GetGroupMembers (scripted scenarioReviewers) "Reviewers" start).2).2
    (GetGroup (scripted scenarioReviewers) "Reviewers"
      (GetGroupMembers (scripted scenarioReviewers) "Reviewers" start).2).2
    [alice, bob] reviewers [] [bob] "g-5"
    (Prod.ext (by decide) rfl) (Prod.ext (by decide) rfl) (Prod.ext (by decide) rfl)
    (by decide) rfl
  have hR1 := hR.2.1 [] bob []
    (GetGroup (scripted scenarioReviewers) "Reviewers"
      (GetGroupMembers (scripted scenarioReviewers) "Reviewers" start).2).2
    (GetGroup (scripted scenarioReviewers) "Reviewers"
      (GetGroupMembers (scripted scenarioReviewers) "Reviewers" start).2).2
    "u-2" "connection reset" "Reviewers" rfl rfl rfl rfl rfl rfl
  refine ⟨⟨?_, ?_⟩, ⟨?_, ?_⟩⟩
  · rw [hD1]
    decide
  · rw [hD2]
    decide
  · rw [hR1]
    decide
  · rw [hR1]
    decide

/-- C11: whenever `Update` or `Create` ends without error, the state it saves has the
group, the project id and the members of the plan, the members being the desired names
unchanged in content and order, whatever the remote directory answered; and in every
pass the calls issued are read calls followed by mutation calls, so no read call
(`ListGroups`, `ReadMembers`, `ReadIdentities`) comes after the first `AddMember` or
`RemoveMember` call. -/
theorem update_returns_plan (c : Client σ) (data : GroupMembershipResourceModel) (w : World σ) :
    ((∀ d, (Update c data w).1 = Res.ok d →
        d.Group = data.Group ∧ d.ProjectId = data.ProjectId ∧ d.Members = data.Members) ∧
      ReadsThenMutations w (Update c data w).2) ∧
    ((∀ d, (Create c data w).1 = Res.ok d →
        d.Group = data.Group ∧ d.ProjectId = data.ProjectId ∧ d.Members = data.Members) ∧
      ReadsThenMutations w (Create c data w).2) := by
  constructor
  · unfold Update
    rcases hm : GetGroupMembers c data.Group.ValueString w with ⟨r, w1⟩
    have h1 : OnlyReads w w1 := by
      have := getGroupMembers_onlyReads c data.Group.ValueString w
      rwa [hm] at this
    cases r with
    | error e => exact ⟨by simp, readsThenMutations_of_reads w w1 h1⟩
    | panic => exact ⟨by simp, readsThenMutations_of_reads w w1 h1⟩
    | ok members =>
      simp only []
      rcases hg : GetGroup c data.Group.ValueString w1 with ⟨r2, w2⟩
      have h2 : OnlyReads w w2 := by
        have := getGroup_onlyReads c data.Group.ValueString w1
        rw [hg] at this
        exact onlyReads_trans h1 this
      cases r2 with
      | error e => exact ⟨by simp, readsThenMutations_of_reads w w2 h2⟩
      | panic => exact ⟨by simp, readsThenMutations_of_reads w w2 h2⟩
      | ok foundGroup =>
        simp only []
        refine ⟨?_, diffAndApply_readsThenMutations c data members foundGroup w w2 h2⟩
        intro d hd
        rw [diffAndApply_ok c data d members foundGroup w2 hd]
        exact ⟨rfl, rfl, rfl⟩
  · unfold Create
    rcases hm : resolveLoop c data.Members [] w with ⟨r, w1⟩
    have h1 : OnlyReads w w1 := by
      have := resolveLoop_onlyReads c data.Members [] w
      rwa [hm] at this
    cases r with
    | error e => exact ⟨by simp, readsThenMutations_of_reads w w1 h1⟩
    | panic => exact ⟨by simp, readsThenMutations_of_reads w w1 h1⟩
    | ok found =>
      simp only []
      rcases hg : GetGroup c data.Group.ValueString w1 with ⟨r2, w2⟩
      have h2 : OnlyReads w w2 := by
        have := getGroup_onlyReads c data.Group.ValueString w1
        rw [hg] at this
        exact onlyReads_trans h1 this
      cases r2 with
      | error e => exact ⟨by simp, readsThenMutations_of_reads w w2 h2⟩
      | panic => exact ⟨by simp, readsThenMutations_of_reads w w2 h2⟩
      | ok foundGroup =>
        simp only []
        rcases ha : createAddLoop c foundGroup found w2 with ⟨r3, w3⟩
        have h3 : ReadsThenMutations w w3 := by
          have := createAddLoop_onlyMutations c foundGroup found w2
          rw [ha] at this
          exact readsThenMutations_of w w2 w3 h2 this
        cases r3 with
        | error e => exact ⟨by simp, h3⟩
        | panic => exact ⟨by simp, h3⟩
        | ok u =>
          refine ⟨?_, h3⟩
          intro d hd
          simp only [Res.ok.injEq] at hd
          rw [← hd]
          exact ⟨rfl, rfl, rfl⟩

/-- C11 at Scenario A with desired names Alice and Carol: `Update` and `Create` end without
error, the members saved are Alice, Carol, and the calls of `Update` are five reads, the
add of Carol and the remove of Bob. -/
theorem update_returns_plan_scenarioA :
    (∃ d, (Update (scripted scenarioA) (planFor ["Alice", "Carol"]) start).1 = Res.ok d ∧
      d.Members = [StringValue "Alice", StringValue "Carol"]) ∧
    (Update (scripted scenarioA) (planFor ["Alice", "Carol"]) start).2.calls
      = [Call.ListGroups true, Call.ReadMembers "g-1",
          Call.ReadIdentities { Descriptors := some "aad.1,aad.2" }, Call.ListGroups true,
          Call.ReadIdentities (searchArgs "Carol"),
          Call.AddMember "g-1" "u-3", Call.RemoveMember "g-1" "u-2"] ∧
    (∃ d, (Create (scripted scenarioA) (planFor ["Alice", "Carol"]) start).1 = Res.ok d ∧
      d.Members = [StringValue "Alice", StringValue "Carol"]) := by
  have h := update_returns_plan (scripted scenarioA) (planFor ["Alice", "Carol"]) start
  have hu : (Update (scripted scenarioA) (planFor ["Alice", "Carol"]) start).1
      = Res.ok (planFor ["Alice", "Carol"]) := by decide
  have hc : (Create (scripted scenarioA) (planFor ["Alice", "Carol"]) start).1
      = Res.ok (planFor ["Alice", "Carol"]) := by decide
  exact ⟨⟨_, hu, (h.1.1 _ hu).2.2⟩, by decide, ⟨_, hc, (h.2.1 _ hc).2.2⟩⟩

/-- C12: when the group is found and the batched descriptor lookup returns a non-empty
sequence of identities, `GetGroupMembers` succeeds, and the sequence it returns is a
permutation of exactly the looked-up identities that carry a `CustomDisplayName`, the
others being dropped without error, sorted in non-decreasing lexical order of display
name. -/
theorem getGroupMembers_named_sorted (c : Client σ) (name : String) (w w1 : World σ)
    (group : Identity) (gid : String) (descriptors : List String) (lookedUp : List Identity)
    (hgroup : GetGroup c name w = (Res.ok group, w1)) (hid : group.Id = some gid)
    (hread : (c.ReadMembers gid w1.remote).1 = Except.ok descriptors)
    (hlook : (c.ReadIdentities { Descriptors := some (",".intercalate descriptors) }
      (c.ReadMembers gid w1.remote).2).1 = Except.ok lookedUp)
    (hne : lookedUp ≠ []) :
    ∃ members, (GetGroupMembers c name w).1 = Res.ok members ∧
      members.Perm (lookedUp.filter (fun m => m.CustomDisplayName.isSome)) ∧
      (∀ m ∈ members, ∃ d, m.CustomDisplayName = some d ∧ displayName m = d) ∧
      members.Sorted (fun i j => displayName i ≤ displayName j) := by
  refine ⟨SortFunc (lookedUp.filter (fun m => m.CustomDisplayName.isSome)), ?_, ?_, ?_, ?_⟩
  · obtain ⟨m, ms, hcons⟩ := List.exists_cons_of_ne_nil hne
    rw [hcons] at hlook
    simp only [GetGroupMembers, hgroup, hid, callReadMembers, hread, GetIdentitiesByDescriptor,
      callReadIdentities, hlook, hcons]
  · exact List.perm_insertionSort _ _
  · intro m hm
    have hm2 := (List.perm_insertionSort _ _).subset hm
    obtain ⟨d, hd⟩ := Option.isSome_iff_exists.mp (List.mem_filter.mp hm2).2
    exact ⟨d, hd, by simp [displayName, hd]⟩
  · haveI : IsTotal Identity (fun i j => (displayName i).toList ≤ (displayName j).toList) :=
      ⟨fun a b => le_total _ _⟩
    haveI : IsTrans Identity (fun i j => (displayName i).toList ≤ (displayName j).toList) :=
      ⟨fun _ _ _ hab hbc => le_trans hab hbc⟩
    have hsorted := List.sorted_insertionSort
      (fun i j : Identity => (displayName i).toList ≤ (displayName j).toList)
      (lookedUp.filter (fun m => m.CustomDisplayName.isSome))
    exact List.Pairwise.imp (fun h => String.le_iff_toList_le.mpr h) hsorted

/-- C12 at a concrete input: the lookup returns Bob, an unnamed entry and Alice; the
members returned are Alice, Bob. -/
theorem getGroupMembers_named_sorted_example :
    (GetGroupMembers (scripted scenarioMixed) "Testers" start).1 = Res.ok [alice, bob] ∧
    ∃ members, (GetGroupMembers (scripted scenarioMixed) "Testers" start).1 = Res.ok members ∧
      members.Perm ([bob, buildService, alice].filter (fun m => m.CustomDisplayName.isSome)) ∧
      (∀ m ∈ members, ∃ d, m.CustomDisplayName = some d ∧ displayName m = d) ∧
      members.Sorted (fun i j => displayName i ≤ displayName j) :=
  ⟨by decide,
    getGroupMembers_named_sorted (scripted scenarioMixed) "Testers" start
      (GetGroup (scripted scenarioMixed) "Testers" start).2 testers "g-1"
      ["aad.2", "svc.1", "aad.1"] [bob, buildService, alice]
      (Prod.ext (by decide) rfl) rfl rfl rfl (by decide)⟩

/-- C13: for every group list the directory returns and every name, `GetGroup` fails with
the error `group <name> not found` if and only if no listed group has a
`ProviderDisplayName` equal to the name; otherwise it returns the first listed group
whose `ProviderDisplayName` equals the name, groups without one being skipped. -/
theorem getGroup_first_match (c : Client σ) (name : String) (w : World σ)
    (groups : List Identity) (hlist : (c.ListGroups true w.remote).1 = Except.ok groups) :
    ((GetGroup c name w).1 = Res.error ("group " ++ name ++ " not found") ↔
      ∀ g ∈ groups, g.ProviderDisplayName ≠ some name) ∧
    (∀ pre g post, groups = pre ++ g :: post → g.ProviderDisplayName = some name →
      (∀ x ∈ pre, x.ProviderDisplayName ≠ some name) → (GetGroup c name w).1 = Res.ok g) ∧
    ((∃ g ∈ groups, g.ProviderDisplayName = some name) →
      ∃ g ∈ groups, g.ProviderDisplayName = some name ∧ (GetGroup c name w).1 = Res.ok g) := by
  have hfound : ∀ pre g post, groups = pre ++ g :: post → g.ProviderDisplayName = some name →
      (∀ x ∈ pre, x.ProviderDisplayName ≠ some name) → (GetGroup c name w).1 = Res.ok g := by
    intro pre g post hsplit hg hpre
    have hscan : scanGroups name groups = g := by
      rw [hsplit]
      exact scanGroups_first_match name pre post g hg hpre
    have hne : ¬ g = {} := by
      intro hzero
      rw [hzero] at hg
      simp at hg
    simp [GetGroup, callListGroups, hlist, hscan, hne]
  have hsome : (∃ g ∈ groups, g.ProviderDisplayName = some name) →
      ∃ g ∈ groups, g.ProviderDisplayName = some name ∧ (GetGroup c name w).1 = Res.ok g := by
    rintro ⟨g0, hg0, hn0⟩
    have hfind : ∃ pre g post, groups = pre ++ g :: post ∧ g.ProviderDisplayName = some name ∧
        ∀ x ∈ pre, x.ProviderDisplayName ≠ some name := by
      clear hfound hlist
      induction groups with
      | nil => simp at hg0
      | cons x rest ih =>
        by_cases hx : x.ProviderDisplayName = some name
        · exact ⟨[], x, rest, rfl, hx, by simp⟩
        · rcases List.mem_cons.mp hg0 with rfl | hrest
          · exact absurd hn0 hx
          · obtain ⟨pre, g, post, hsplit, hg, hpre⟩ := ih hrest
            refine ⟨x :: pre, g, post, by rw [hsplit, List.cons_append], hg, ?_⟩
            intro y hy
            rcases List.mem_cons.mp hy with rfl | hy
            · exact hx
            · exact hpre y hy
    obtain ⟨pre, g, post, hsplit, hg, hpre⟩ := hfind
    exact ⟨g, by rw [hsplit]; simp, hg, hfound pre g post hsplit hg hpre⟩
  refine ⟨⟨?_, ?_⟩, hfound, hsome⟩
  · intro herr g hg hn
    obtain ⟨g1, _, _, hok⟩ := hsome ⟨g, hg, hn⟩
    rw [hok] at herr
    simp at herr
  · intro hnone
    simp [GetGroup, callListGroups, hlist, scanGroups_of_no_match name groups hnone]

/-- C13 at a concrete input: among a nameless group, Readers, Testers and a second
Testers, the name Testers gives the first Testers and the name Writers gives the error. -/
theorem getGroup_first_match_example :
    (GetGroup (scripted scenarioGroups) "Testers" start).1 = Res.ok testers ∧
    (GetGroup (scripted scenarioGroups) "Writers" start).1
      = Res.error "group Writers not found" :=
  ⟨(getGroup_first_match (scripted scenarioGroups) "Testers" start
      [namelessGroup, readers, testers, testersTwin] rfl).2.1
      [namelessGroup, readers] testers [testersTwin] rfl rfl (by decide),
    (getGroup_first_match (scripted scenarioGroups) "Writers" start
      [namelessGroup, readers, testers, testersTwin] rfl).1.mpr (by decide)⟩

/-- C14, the code at the failing input: `GetGroup` returns the group Testers, matched on
its `ProviderDisplayName` and carrying no `CustomDisplayName`; `GetGroupMembers` returns
Alice and Bob; the desired name is Alice, so Bob is to be removed, and the remote remove
call fails. Building the error text, `RemoveMemberFromGroup` dereferences the group's
absent `CustomDisplayName` and panics: `Update` crashes instead of returning the error. -/
theorem update_remove_failure_crashes :
    (GetGroup (scripted scenarioRemoveFails) "Testers" start).1 = Res.ok testers ∧
    testers.CustomDisplayName = none ∧
    (GetGroupMembers (scripted scenarioRemoveFails) "Testers" start).1 = Res.ok [alice, bob] ∧
    toRemoveLoop (["Alice"].map StringValue) [alice, bob] [] = some [bob] ∧
    ((scripted scenarioRemoveFails).RemoveMember "g-1" "u-2" ()).1
      = Except.error "connection reset" ∧
    (RemoveMemberFromGroup (scripted scenarioRemoveFails) testers bob start).1 = Res.panic ∧
    (Update (scripted scenarioRemoveFails) (planFor ["Alice"]) start).1 = Res.panic ∧
    (Update (scripted scenarioRemoveFails) (planFor ["Alice"]) start).2.mutations
      = [Call.RemoveMember "g-1" "u-2"] := by
  refine ⟨by decide, rfl, by decide, by decide, rfl, by decide, by decide, by decide⟩

end Azdo
